import Mathlib

/-!
# rtop: metrics acquisition and derivation pipeline

A shallow embedding of `main.go` (package `main` of `qichengzx/rtop`): the report
parser (`fetch`, `parseStr`, `property.formatVal`), the derived metrics
(`Top.calCpu*`, `Top.calMemory`, the hit ratio of `renderKeyHitPercent`) and the
sliding windows maintained by `Top.format`.

Conventions of the embedding.

* Go `string` is `String`; the only separators the program uses (`":"`, `"#"`,
  `"\r\n"`) are ASCII, so splitting on characters and on bytes agree.
* Go `int64` is `Int`; the one place where the program can overflow
  (`KeyspaceHits + KeyspaceMisses`) wraps explicitly with `wrapInt64`.
* Go `float64` is `Float64` below: IEEE-754 binary64 with round-to-nearest-even,
  signed zeros, infinities and a single NaN.
* `time.Time` is the number of nanoseconds since the zero `Time`;
  `time.Duration` is a number of nanoseconds in the `int64` range.
* A nil pointer dereference is `none` in the result of a function.
* `strconv.ParseInt` and `strconv.ParseFloat` are embedded from the Go library;
  the functions of the parser take the float conversion as a parameter, and the
  statements about the value of a float field are about `strconv.ParseFloat`.
-/

set_option maxRecDepth 100000
set_option exponentiation.threshold 5000
set_option autoImplicit false

/-! ## IEEE-754 binary64 -/

/-- Number of binary digits of `n` (0 for 0), by halving at most `fuel` times. -/
def bitLen : Nat → Nat → Nat
  | 0, _ => 0
  | fuel + 1, n => if n = 0 then 0 else bitLen fuel (n / 2) + 1

/-- A Go `float64`. `fin neg m e` is `(-1)^neg * m * 2^e`, kept canonical:
`m < 2^53`, `-1074 ≤ e ≤ 971`, and `2^52 ≤ m` unless `e = -1074`
(subnormals and the two zeros `fin _ 0 (-1074)`). -/
inductive Float64 where
  | nan : Float64
  | inf (neg : Bool) : Float64
  | fin (neg : Bool) (m : Nat) (e : Int) : Float64
deriving DecidableEq, Repr

namespace Float64

/-- The value `+0`, which is what the Go constant `0` converts to. -/
def zero : Float64 := fin false 0 (-1074)

/-- The quotient `num / den` rounded to the nearest integer, ties to the even one. -/
def rne (num den : Nat) : Nat :=
  let q := num / den
  let r := num % den
  if den < 2 * r ∨ (2 * r = den ∧ q % 2 = 1) then q + 1 else q

/-- The binary exponent `s` that scales `n / d` into the mantissa range:
`2^52 ≤ (n / d) / 2^s < 2^53` (for `0 < n` and `0 < d`). -/
def normShift (n d : Nat) : Int :=
  let s0 : Int := (bitLen (n + 1) n : Int) - (bitLen (d + 1) d : Int) - 53
  if n * 2 ^ (-s0).toNat < d * 2 ^ s0.toNat * 2 ^ 53 then s0 else s0 + 1

/-- Round-to-nearest-even of the rational `(-1)^neg * (n / d) * 2^e` (with `0 < d`):
the quotient is scaled into `[2^52, 2^53)`, or to the exponent `-1074` of the
subnormals when it is smaller than that, and rounded with `rne`; a mantissa that
rounds up to `2^53` moves to the next exponent, and an exponent above `971`
overflows to infinity. -/
def round (neg : Bool) (n d : Nat) (e : Int) : Float64 :=
  if n = 0 then fin neg 0 (-1074)
  else
    let s : Int := max (normShift n d) (-1074 - e)
    let q := rne (n * 2 ^ (-s).toNat) (d * 2 ^ s.toNat)
    let m := if q = 2 ^ 53 then 2 ^ 52 else q
    let ex := if q = 2 ^ 53 then e + s + 1 else e + s
    if 971 < ex then inf neg else fin neg m ex

/-- The conversion `float64(i)` of an integer. -/
def ofInt (z : Int) : Float64 := round (decide (z < 0)) z.natAbs 1 0

/-- The predicate `math.IsNaN`. -/
def isNaN : Float64 → Bool
  | nan => true
  | _ => false

/-- A finite value: neither NaN nor an infinity. -/
def isFinite : Float64 → Bool
  | fin _ _ _ => true
  | _ => false

/-- Unary minus. -/
def neg : Float64 → Float64
  | nan => nan
  | inf s => inf (!s)
  | fin s m e => fin (!s) m e

/-- The sum `x + y`. -/
def add : Float64 → Float64 → Float64
  | nan, _ => nan
  | _, nan => nan
  | inf a, inf b => if a = b then inf a else nan
  | inf a, fin _ _ _ => inf a
  | fin _ _ _, inf b => inf b
  | fin s1 m1 e1, fin s2 m2 e2 =>
    let e := min e1 e2
    let a : Int := (if s1 then -1 else 1) * ((m1 * 2 ^ (e1 - e).toNat : Nat) : Int)
    let b : Int := (if s2 then -1 else 1) * ((m2 * 2 ^ (e2 - e).toNat : Nat) : Int)
    if a + b = 0 then fin (s1 && s2) 0 (-1074)
    else round (decide (a + b < 0)) (a + b).natAbs 1 e

/-- The difference `x - y`. -/
def sub (x y : Float64) : Float64 := add x (neg y)

/-- The product `x * y`. -/
def mul : Float64 → Float64 → Float64
  | nan, _ => nan
  | _, nan => nan
  | inf a, inf b => inf (xor a b)
  | inf a, fin s m _ => if m = 0 then nan else inf (xor a s)
  | fin s m _, inf b => if m = 0 then nan else inf (xor s b)
  | fin s1 m1 e1, fin s2 m2 e2 => round (xor s1 s2) (m1 * m2) 1 (e1 + e2)

/-- The quotient `x / y`; a zero divisor gives NaN for `0 / 0` and an infinity
otherwise. -/
def div : Float64 → Float64 → Float64
  | nan, _ => nan
  | _, nan => nan
  | inf _, inf _ => nan
  | inf a, fin s _ _ => inf (xor a s)
  | fin s _ _, inf b => fin (xor s b) 0 (-1074)
  | fin s1 m1 e1, fin s2 m2 e2 =>
    if m2 = 0 then (if m1 = 0 then nan else inf (xor s1 s2))
    else round (xor s1 s2) m1 m2 (e1 - e2)

/-- The function `math.Ceil`: `Ceil(±0) = ±0`, `Ceil(±Inf) = ±Inf`,
`Ceil(NaN) = NaN`. -/
def ceil : Float64 → Float64
  | nan => nan
  | inf s => inf s
  | fin s m e =>
    if 0 ≤ e then fin s m e
    else
      let q := m / 2 ^ (-e).toNat
      let r := m % 2 ^ (-e).toNat
      if s then round true q 1 0
      else round false (if r = 0 then q else q + 1) 1 0

/-- The comparison `x == y` of Go: the two zeros are equal, NaN equals nothing. -/
def eq : Float64 → Float64 → Bool
  | fin s1 m1 e1, fin s2 m2 e2 =>
    (m1 == 0 && m2 == 0) || (s1 == s2 && m1 == m2 && e1 == e2)
  | inf a, inf b => a == b
  | _, _ => false

/-- The clamp that the program applies after a division: NaN becomes `+0`. -/
def nanToZero (x : Float64) : Float64 := if x.isNaN then zero else x

/-- A finite value above zero. -/
def isPos : Float64 → Bool
  | fin s m _ => !s && m != 0
  | _ => false

/-- The conversion `int(f)` on a 64-bit platform: truncation toward zero;
`none` where the Go specification leaves the result to the implementation
(NaN, infinities, values outside the `int64` range). -/
def toInt64 : Float64 → Option Int
  | fin s m e =>
    let a : Int := ((m * 2 ^ e.toNat / 2 ^ (-e).toNat : Nat) : Int)
    let z : Int := if s then -a else a
    if -(2 : Int) ^ 63 ≤ z ∧ z < (2 : Int) ^ 63 then some z else none
  | _ => none

end Float64

/-- Two's-complement wrap of an integer into the `int64` range. -/
def wrapInt64 (z : Int) : Int := (z + 2 ^ 63) % 2 ^ 64 - 2 ^ 63

/-! ## Package `time` -/

/-- A `time.Time`: nanoseconds since the zero `Time` (January 1, year 1 UTC). -/
abbrev Time := Int

/-- A `time.Duration`: a count of nanoseconds. -/
abbrev Duration := Int

/-- The largest `Duration`, `1<<63 - 1` nanoseconds. -/
def maxDuration : Duration := 2 ^ 63 - 1

/-- The smallest `Duration`, `-1 << 63` nanoseconds. -/
def minDuration : Duration := -(2 ^ 63)

/-- The method `Time.Sub`: `t - u`, saturating at the extreme durations. -/
def Time.Sub (t u : Time) : Duration :=
  if maxDuration < t - u then maxDuration
  else if t - u < minDuration then minDuration
  else t - u

/-- The method `Duration.Seconds`:
`float64(d / Second) + float64(d % Second) / 1e9`. -/
def Duration.Seconds (d : Duration) : Float64 :=
  Float64.add (Float64.ofInt (Int.tdiv d 1000000000))
    (Float64.div (Float64.ofInt (Int.tmod d 1000000000)) (Float64.ofInt 1000000000))

/-! ## Package `strings` -/

namespace strings

/-- First occurrence of `sep` in `s`: the text before it and the text after it,
or `none` when `sep` does not occur (`strings.Index` returning `-1`). -/
def cut (sep : List Char) : List Char → Option (List Char × List Char)
  | [] => if sep.isPrefixOf [] then some ([], []) else none
  | c :: cs =>
    if sep.isPrefixOf (c :: cs) then some ([], (c :: cs).drop sep.length)
    else
      match cut sep cs with
      | some (a, b) => some (c :: a, b)
      | none => none

/-- The loop of `genSplit`: cut at `sep` at most `cuts` times; the rest of the
text is the last piece. -/
def splitLoop (sep : List Char) : Nat → List Char → List (List Char)
  | 0, s => [s]
  | cuts + 1, s =>
    match cut sep s with
    | none => [s]
    | some (a, b) => a :: splitLoop sep cuts b

/-- The function `strings.SplitN(s, sep, n)` for a non-empty `sep` and `0 < n`:
at most `n` pieces, and never more than `len(s) + 1`. -/
def SplitN (s sep : String) (n : Nat) : List String :=
  (splitLoop sep.data (min n (s.length + 1) - 1) s.data).map String.mk

/-- The function `strings.Split(s, sep)` for a non-empty `sep`: `SplitN` with no
limit on the number of pieces (there are at most `len(s) + 1`). -/
def Split (s sep : String) : List String := SplitN s sep (s.length + 1)

/-- The function `strings.HasPrefix`. -/
def HasPrefix (s pre : String) : Bool := pre.data.isPrefixOf s.data

end strings

/-! ## Package `strconv` -/

namespace strconv

/-- The two kinds of `*NumError` that the conversions report. -/
inductive NumError where
  | ErrSyntax : NumError
  | ErrRange : NumError
deriving DecidableEq, Repr

/-- The largest `uint64`. -/
def maxUint64 : Nat := 2 ^ 64 - 1

/-- The helper `lower(c) = c | ('x' - 'X')`. -/
def lower (c : Char) : Nat := c.toNat ||| 32

/-- The digit loop of `ParseUint(s, 10, 64)` with accumulator `n`. A character
that is no digit of base 10 is a syntax error (value 0); a digit that would take
the accumulator past `maxUint64` is a range error (value `maxUint64`), reported
at once, without a look at the rest of the text. -/
def parseUintLoop : List Char → Nat → Nat × Option NumError
  | [], n => (n, none)
  | c :: cs, n =>
    let d : Option Nat :=
      if 48 ≤ c.toNat ∧ c.toNat ≤ 57 then some (c.toNat - 48)
      else if 97 ≤ lower c ∧ lower c ≤ 122 then some (lower c - 97 + 10)
      else none
    match d with
    | none => (0, some NumError.ErrSyntax)
    | some d =>
      if 10 ≤ d then (0, some NumError.ErrSyntax)
      else if maxUint64 / 10 + 1 ≤ n then (maxUint64, some NumError.ErrRange)
      else
        let n10 := n * 10 % 2 ^ 64
        let n1 := (n10 + d) % 2 ^ 64
        if n1 < n10 ∨ maxUint64 < n1 then (maxUint64, some NumError.ErrRange)
        else parseUintLoop cs n1

/-- The function `strconv.ParseUint(s, 10, 64)`. -/
def ParseUint (s : List Char) : Nat × Option NumError :=
  if s = [] then (0, some NumError.ErrSyntax) else parseUintLoop s 0

/-- The function `strconv.ParseInt(s, 10, 64)`: an optional sign, then
`ParseUint`; a syntax error gives 0, a magnitude out of the `int64` range gives
the nearest bound together with a range error. -/
def ParseInt (s : String) : Int × Option NumError :=
  match s.data with
  | [] => (0, some NumError.ErrSyntax)
  | c :: cs =>
    let neg : Bool := c == Char.ofNat 45
    let body : List Char := if c == Char.ofNat 43 || c == Char.ofNat 45 then cs else c :: cs
    match ParseUint body with
    | (un, err) =>
      if err = some NumError.ErrSyntax then (0, err)
      else if !neg && decide (2 ^ 63 ≤ un) then (2 ^ 63 - 1, some NumError.ErrRange)
      else if neg && decide (2 ^ 63 < un) then (-(2 ^ 63), some NumError.ErrRange)
      else (if neg then -(un : Int) else (un : Int), none)

/-! ### Decimal texts, for the statements about `ParseInt` -/

/-- A decimal digit `'0'..'9'`. -/
def isDigit (c : Char) : Bool := decide (48 ≤ c.toNat) && decide (c.toNat ≤ 57)

/-- The number that the decimal digits `cs` denote when appended to `n`. -/
def digitsValue (n : Nat) (cs : List Char) : Nat :=
  cs.foldl (fun a c => a * 10 + (c.toNat - 48)) n

/-- The text after an optional leading sign. -/
def signBody : List Char → List Char
  | [] => []
  | c :: cs => if c = Char.ofNat 43 ∨ c = Char.ofNat 45 then cs else c :: cs

/-- Whether the text starts with a minus sign. -/
def hasMinus : List Char → Bool
  | [] => false
  | c :: _ => c == Char.ofNat 45

/-- Decimal syntax: an optional sign followed by one or more decimal digits. -/
def decimalSyntax (s : String) : Bool :=
  !(signBody s.data).isEmpty && (signBody s.data).all isDigit

/-- The integer that a text of decimal syntax denotes. -/
def decimalValue (s : String) : Int :=
  if hasMinus s.data then -(digitsValue 0 (signBody s.data) : Int)
  else (digitsValue 0 (signBody s.data) : Int)

/-- The digits that the text has between its optional sign and its first other
character. -/
def leadingDigits (s : String) : List Char := (signBody s.data).takeWhile isDigit

/-! ### The function `ParseFloat`

The conversion follows `strconv/atof.go`: `special` for the texts of the
infinities and NaN, `readFloat` for the syntax of a decimal or hexadecimal
literal, then the nearest `float64` of the number read. The library reaches that
value through fast paths and a multi-precision fallback, all of which round to
nearest, ties to even; here it is `Float64.round` of the exact number. -/

/-- The helper `commonPrefixLenIgnoreCase(s, prefix)` for a lower-case `prefix`. -/
def commonPrefixLenIgnoreCase : List Char → List Char → Nat
  | c :: cs, p :: ps =>
    if (if 65 ≤ c.toNat ∧ c.toNat ≤ 90 then c.toNat + 32 else c.toNat) ≠ p.toNat then 0
    else commonPrefixLenIgnoreCase cs ps + 1
  | _, _ => 0

/-- The length that `special` matches against `infinity`: the common prefix,
cut back to `inf` when it stops inside `inity`. -/
def infinityLen (s : List Char) : Nat :=
  if 3 < commonPrefixLenIgnoreCase s "infinity".data ∧
      commonPrefixLenIgnoreCase s "infinity".data < 8 then 3
  else commonPrefixLenIgnoreCase s "infinity".data

/-- The helper `special`: a prefix of the text that reads `inf`, `infinity` (with
an optional sign) or `nan`, in any letter case, with its value and length. -/
def special (s : List Char) : Option (Float64 × Nat) :=
  match s with
  | [] => none
  | c :: cs =>
    if c = '+' ∨ c = '-' then
      if infinityLen cs = 3 ∨ infinityLen cs = 8 then
        some (Float64.inf (c == '-'), 1 + infinityLen cs)
      else none
    else if c = 'i' ∨ c = 'I' then
      if infinityLen (c :: cs) = 3 ∨ infinityLen (c :: cs) = 8 then
        some (Float64.inf false, infinityLen (c :: cs))
      else none
    else if c = 'n' ∨ c = 'N' then
      if commonPrefixLenIgnoreCase (c :: cs) "nan".data = 3 then some (Float64.nan, 3) else none
    else none

/-- The state of the mantissa loop of `readFloat`; `mant` holds every digit read
(the library keeps 19 of them and a truncation flag, and rounds the same value). -/
structure Mantissa where
  sawdot : Bool
  sawdigits : Bool
  nd : Nat
  dp : Int
  mant : Nat
  underscores : Bool
deriving DecidableEq, Repr

/-- The mantissa loop of `readFloat` in base 10 or 16: the state after the last
character it accepts, and the text from the character that stops it. -/
def mantissaLoop (hex : Bool) : List Char → Mantissa → Mantissa × List Char
  | [], st => (st, [])
  | c :: cs, st =>
    if c = '_' then mantissaLoop hex cs { st with underscores := true }
    else if c = '.' then
      if st.sawdot then (st, c :: cs)
      else mantissaLoop hex cs { st with sawdot := true, dp := st.nd }
    else if 48 ≤ c.toNat ∧ c.toNat ≤ 57 then
      if c = '0' ∧ st.nd = 0 then
        mantissaLoop hex cs { st with sawdigits := true, dp := st.dp - 1 }
      else
        mantissaLoop hex cs
          { st with sawdigits := true, nd := st.nd + 1,
                    mant := st.mant * (if hex then 16 else 10) + (c.toNat - 48) }
    else if hex = true ∧ 97 ≤ lower c ∧ lower c ≤ 102 then
      mantissaLoop hex cs
        { st with sawdigits := true, nd := st.nd + 1, mant := st.mant * 16 + (lower c - 97 + 10) }
    else (st, c :: cs)

/-- The exponent loop of `readFloat`: digits and underscores; the exponent stops
growing once it has reached 10000. Returns the exponent, whether an underscore
was seen, and the rest of the text. -/
def exponentLoop : List Char → Nat → Bool → Nat × Bool × List Char
  | [], e, u => (e, u, [])
  | c :: cs, e, u =>
    if 48 ≤ c.toNat ∧ c.toNat ≤ 57 then
      exponentLoop cs (if e < 10000 then e * 10 + (c.toNat - 48) else e) u
    else if c = '_' then exponentLoop cs e true
    else (e, u, c :: cs)

/-- The function `underscoreOK`, with `saw` the kind of the last character seen:
0 for the beginning, 1 for a digit or base prefix, 2 for an underscore, 3 for
anything else. -/
def underscoreLoop (hex : Bool) : List Char → Nat → Bool
  | [], saw => saw != 2
  | c :: cs, saw =>
    if (48 ≤ c.toNat ∧ c.toNat ≤ 57) ∨ (hex = true ∧ 97 ≤ lower c ∧ lower c ≤ 102) then
      underscoreLoop hex cs 1
    else if c = '_' then
      if saw ≠ 1 then false else underscoreLoop hex cs 2
    else if saw = 2 then false
    else underscoreLoop hex cs 3

/-- The function `underscoreOK`: underscores only between digits, or between a
base prefix and a digit. -/
def underscoreOK (s : List Char) : Bool :=
  let s1 : List Char :=
    match s with
    | c :: cs => if c = '-' ∨ c = '+' then cs else c :: cs
    | [] => []
  match s1 with
  | z :: x :: rest =>
    if z = '0' ∧ (lower x = 98 ∨ lower x = 111 ∨ lower x = 120) then
      underscoreLoop (lower x == 120) rest 1
    else underscoreLoop false s1 0
  | _ => underscoreLoop false s1 0

/-- The test of `readFloat` for the base prefix: `0x` or `0X` with at least one
more character after it. -/
def hasHexPrefix : List Char → Bool
  | z :: x :: _ :: _ => z == '0' && lower x == 120
  | _ => false

/-- What `readFloat` extracts from a text: the sign, the base, all the digits of
the mantissa as a number, and the exponent of the base 10 (decimal) or of 2 (hex)
that scales it. -/
structure FloatParts where
  neg : Bool
  hex : Bool
  mant : Nat
  exp : Int
deriving DecidableEq, Repr

/-- The function `readFloat`: the parts of the longest prefix that is a decimal or
hexadecimal floating-point literal, and the rest of the text; `none` when there
is no such prefix (`ok = false`). -/
def readFloat (s : List Char) : Option (FloatParts × List Char) :=
  match s with
  | [] => none
  | c0 :: cs0 =>
    let neg : Bool := c0 == '-'
    let r0 : List Char := if c0 = '+' ∨ c0 = '-' then cs0 else c0 :: cs0
    let hex : Bool := hasHexPrefix r0
    let r1 : List Char := if hex then r0.drop 2 else r0
    match mantissaLoop hex r1
        { sawdot := false, sawdigits := false, nd := 0, dp := 0, mant := 0,
          underscores := false } with
    | (st, r2) =>
      if st.sawdigits = false then none
      else
        let dp : Int := if st.sawdot then st.dp else (st.nd : Int)
        let scale : Int := if hex then 4 * (dp - st.nd) else dp - st.nd
        let finish (e : Int) (u : Bool) (rest : List Char) : Option (FloatParts × List Char) :=
          if u = true ∧ underscoreOK (s.take (s.length - rest.length)) = false then none
          else some ({ neg := neg, hex := hex, mant := st.mant,
                       exp := if st.mant = 0 then 0 else scale + e }, rest)
        match r2 with
        | c :: cs =>
          if lower c = (if hex then 112 else 101) then
            match cs with
            | [] => none
            | c2 :: cs2 =>
              let esign : Int := if c2 = '-' then -1 else 1
              let r3 : List Char := if c2 = '+' ∨ c2 = '-' then cs2 else c2 :: cs2
              match r3 with
              | [] => none
              | d :: _ =>
                if 48 ≤ d.toNat ∧ d.toNat ≤ 57 then
                  match exponentLoop r3 0 st.underscores with
                  | (e, u, rest) => finish ((e : Int) * esign) u rest
                else none
          else if hex then none
          else finish 0 st.underscores r2
        | [] => if hex then none else finish 0 st.underscores []

/-- The nearest `float64` of the number that the parts denote, ties to even;
infinite when the number is out of range. -/
def FloatParts.value (p : FloatParts) : Float64 :=
  if p.hex then Float64.round p.neg p.mant 1 p.exp
  else if 0 ≤ p.exp then Float64.round p.neg (p.mant * 10 ^ p.exp.toNat) 1 0
  else Float64.round p.neg p.mant (10 ^ (-p.exp).toNat) 0

/-- The function `strconv.ParseFloat(s, 64)`: the special values, or the nearest
`float64` of a decimal or hexadecimal literal; a text that is not wholly one of
these gives 0 with a syntax error, and a literal out of range gives an infinity
with a range error. -/
def ParseFloat (s : String) : Float64 × Option NumError :=
  match special s.data with
  | some (f, n) =>
    if n = s.data.length then (f, none) else (Float64.zero, some NumError.ErrSyntax)
  | none =>
    match readFloat s.data with
    | none => (Float64.zero, some NumError.ErrSyntax)
    | some (p, rest) =>
      if rest ≠ [] then (Float64.zero, some NumError.ErrSyntax)
      else
        match p.value with
        | Float64.inf b => (Float64.inf b, some NumError.ErrRange)
        | f => (f, none)

/-! ### Texts, for the statements about `ParseFloat` -/

/-- The character codes of a text with the letters `A..Z` lowered. -/
def lowerCodes (s : List Char) : List Nat :=
  s.map (fun c => if 65 ≤ c.toNat ∧ c.toNat ≤ 90 then c.toNat + 32 else c.toNat)

/-- The texts of the special values: `inf` or `infinity` with an optional sign, or
`nan`, in any letter case. -/
def isSpecialText (s : String) : Bool :=
  lowerCodes s.data == [110, 97, 110] ||
  lowerCodes (signBody s.data) == [105, 110, 102] ||
  lowerCodes (signBody s.data) == [105, 110, 102, 105, 110, 105, 116, 121]

/-- A character that occurs in some text that `ParseFloat` accepts: a decimal
digit, a sign, the dot, the underscore, or a letter of the hexadecimal digits
(`a..f`), of the exponent and base marks (`e`, `p`, `x`) or of the special values
(`inf`, `infinity`, `nan`), in either case. -/
def isFloatChar (c : Char) : Bool :=
  isDigit c || c == '+' || c == '-' || c == '.' || c == '_' ||
  (decide (97 ≤ lower c) && decide (lower c ≤ 102)) ||
  lower c == 105 || lower c == 110 || lower c == 112 || lower c == 116 ||
  lower c == 120 || lower c == 121

end strconv

/-! ## Data model of `main.go` -/

namespace Rtop

/-- The constant `maxLen`. -/
def maxLen : Nat := 50

/-- The constant `CPUSYS`. -/
def CPUSYS : String := "sys"

/-- The constant `CPUSER`. -/
def CPUSER : String := "user"

/-- The struct `Info`: one snapshot of the monitored instance, with the five
sliding windows it carries. -/
structure Info where
  t : Time
  Version : String
  UptimeInSeconds : Int
  CpuSys : Float64
  CpuUser : Float64
  ConnectedClients : Int
  ConnectedClientLine : List Float64
  BlockedClients : Int
  BlockedClientsLine : List Float64
  UsedMemory : Float64
  MaxMemery : Float64
  RdbChangesSinceLastSave : Int
  RdbLastSaveTime : Int
  Qps : Int
  QpsLine : List Float64
  InstantaneousInputKbps : Float64
  InputKbsLine : List Float64
  InstantaneousOutputKbps : Float64
  OutputKbsLine : List Float64
  KeyspaceMisses : Int
  KeyspaceHits : Int
  Role : String
deriving DecidableEq, Repr

/-- The zero value `Info{}`. -/
def Info.zero : Info :=
  { t := 0, Version := "", UptimeInSeconds := 0,
    CpuSys := Float64.zero, CpuUser := Float64.zero,
    ConnectedClients := 0, ConnectedClientLine := [],
    BlockedClients := 0, BlockedClientsLine := [],
    UsedMemory := Float64.zero, MaxMemery := Float64.zero,
    RdbChangesSinceLastSave := 0, RdbLastSaveTime := 0,
    Qps := 0, QpsLine := [],
    InstantaneousInputKbps := Float64.zero, InputKbsLine := [],
    InstantaneousOutputKbps := Float64.zero, OutputKbsLine := [],
    KeyspaceMisses := 0, KeyspaceHits := 0, Role := "" }

/-- The struct `Top`. `prev` is a pointer that is nil until the first snapshot
arrives; `now` is never nil (`main` allocates it, `run` assigns `&item`). -/
structure Top where
  t : Time
  prev : Option Info
  now : Info
deriving DecidableEq, Repr

/-- The struct `property`: one `key:value` line of the report. -/
structure property where
  k : String
  v : String
deriving DecidableEq, Repr

/-- A value stored in the `map[string]interface{}` that `fetch` builds. -/
inductive Val where
  | float (f : Float64) : Val
  | int (i : Int) : Val
  | str (s : String) : Val
deriving DecidableEq, Repr

/-- A Go map from `string` to `interface{}`: a list of entries with distinct keys. -/
abbrev GoMap := List (String × Val)

/-- The assignment `m[k] = v`. -/
def GoMap.set (m : GoMap) (k : String) (v : Val) : GoMap :=
  (k, v) :: m.filter (fun e => e.1 != k)

/-! ## The report parser -/

/-- The function `parseStr`: split at the first `":"`; a line without one gives
the zero `property`. -/
def parseStr (x : String) : property :=
  match strings.SplitN x ":" 2 with
  | k :: v :: _ => { k := k, v := v }
  | _ => { k := "", v := "" }

/-- The method `property.int64`: the value of `strconv.ParseInt(p.v, 10, 64)`,
its error dropped. -/
def property.int64 (p : property) : Int := (strconv.ParseInt p.v).1

/-- The method `property.float64`: the value of `strconv.ParseFloat(p.v, 64)`,
its error dropped. The library function is the parameter `ParseFloat`. -/
def property.float64 (ParseFloat : String → Float64 × Option strconv.NumError)
    (p : property) : Float64 :=
  (ParseFloat p.v).1

/-- The keys that `formatVal` converts with `float64`. -/
def floatFields : List String :=
  ["used_cpu_sys", "used_cpu_user", "instantaneous_input_kbps",
   "instantaneous_output_kbps", "maxmemory", "used_memory"]

/-- The keys that `formatVal` converts with `int64`. -/
def intFields : List String :=
  ["uptime_in_seconds", "connected_clients", "rdb_changes_since_last_save",
   "rdb_last_save_time", "instantaneous_ops_per_sec", "keyspace_hits",
   "keyspace_misses", "blocked_clients"]

/-- The method `property.formatVal`: the `switch` on the key. -/
def property.formatVal (ParseFloat : String → Float64 × Option strconv.NumError)
    (p : property) : Val :=
  if p.k ∈ floatFields then Val.float (p.float64 ParseFloat)
  else if p.k ∈ intFields then Val.int p.int64
  else Val.str p.v

/-- One iteration of the loop of `fetch` over the lines of the report. -/
def fetchLine (ParseFloat : String → Float64 × Option strconv.NumError)
    (m : GoMap) (str : String) : GoMap :=
  if strings.HasPrefix str "#" || str == "" then m
  else
    let kv := parseStr str
    m.set kv.k (kv.formatVal ParseFloat)

/-- The mapping `m` that `fetch` builds from the report `r`. -/
def fetchMap (ParseFloat : String → Float64 × Option strconv.NumError)
    (r : String) : GoMap :=
  (strings.Split r "\r\n").foldl (fetchLine ParseFloat) []

/-! ## The sliding windows -/

/-- The method `Top.format`; `none` is the nil dereference of `t.prev`. -/
def Top.format (t : Top) : Option Top :=
  match t.prev with
  | none => none
  | some p =>
    let p1 : Info :=
      if p.QpsLine.length > maxLen - 1 then
        { p with QpsLine := p.QpsLine.drop (p.QpsLine.length - maxLen) }
      else p
    let n1 : Info := { t.now with QpsLine := p1.QpsLine ++ [Float64.ofInt t.now.Qps] }
    let p2 : Info :=
      if p1.InputKbsLine.length > maxLen then
        { p1 with InputKbsLine := p1.InputKbsLine.drop (p1.InputKbsLine.length - maxLen) }
      else p1
    let n2 : Info := { n1 with InputKbsLine := p2.InputKbsLine ++ [n1.InstantaneousInputKbps] }
    let p3 : Info :=
      if p2.OutputKbsLine.length > maxLen then
        { p2 with OutputKbsLine := p2.OutputKbsLine.drop (p2.OutputKbsLine.length - maxLen) }
      else p2
    let n3 : Info :=
      { n2 with OutputKbsLine := p3.OutputKbsLine ++ [n2.InstantaneousOutputKbps] }
    let p4 : Info :=
      if p3.ConnectedClientLine.length > maxLen then
        { p3 with ConnectedClientLine :=
            p3.ConnectedClientLine.drop (p3.ConnectedClientLine.length - maxLen) }
      else p3
    let n4 : Info :=
      { n3 with ConnectedClientLine :=
          p4.ConnectedClientLine ++ [Float64.ofInt n3.ConnectedClients] }
    let p5 : Info :=
      if p4.BlockedClientsLine.length > maxLen then
        { p4 with BlockedClientsLine :=
            p4.BlockedClientsLine.drop (p4.BlockedClientsLine.length - maxLen) }
      else p4
    let n5 : Info :=
      { n4 with BlockedClientsLine :=
          p5.BlockedClientsLine ++ [Float64.ofInt n4.BlockedClients] }
    some { t with prev := some p5, now := n5 }

/-- The `Top` that `main` constructs at time `now`. -/
def mainTop (now : Time) : Top := { t := now, prev := none, now := Info.zero }

/-- The state change of `Top.run` for a snapshot received on the channel:
`t.prev = t.now; t.now = &item; t.format()`. -/
def Top.runItem (t : Top) (item : Info) : Option Top :=
  Top.format { t with prev := some t.now, now := item }

/-- The state after `run` has received the snapshots `items` in order. -/
def Top.runItems (t : Top) : List Info → Option Top
  | [] => some t
  | item :: items =>
    match t.runItem item with
    | none => none
    | some t1 => Top.runItems t1 items

/-! ## Derived metrics -/

/-- The method `Top.diffCpu`. -/
def Top.diffCpu (t : Top) (ty : String) : Float64 :=
  match t.prev with
  | none => Float64.zero
  | some p =>
    if ty = CPUSER then Float64.sub t.now.CpuUser p.CpuUser
    else Float64.sub t.now.CpuSys p.CpuSys

/-- The method `Top.calCpu`. -/
def Top.calCpu (t : Top) (f : Float64) : Float64 :=
  match t.prev with
  | none => Float64.zero
  | some p =>
    let tm := Duration.Seconds (Time.Sub t.now.t p.t)
    let n := Float64.mul (Float64.div f tm) (Float64.ofInt 100)
    if n.isNaN then Float64.zero else n

/-- The method `Top.calCpuSys`. -/
def Top.calCpuSys (t : Top) : Float64 := t.calCpu (t.diffCpu CPUSYS)

/-- The method `Top.calCpuUs`. -/
def Top.calCpuUs (t : Top) : Float64 := t.calCpu (t.diffCpu CPUSER)

/-- The method `Top.calMemory`. -/
def Top.calMemory (t : Top) : Float64 :=
  if Float64.eq t.now.MaxMemery Float64.zero then Float64.zero
  else
    let n := Float64.mul (Float64.div t.now.UsedMemory t.now.MaxMemery) (Float64.ofInt 100)
    if n.isNaN then Float64.zero else n

/-- The two bar colours that `renderKeyHitPercent` chooses between. -/
inductive Color where
  | ColorGreen : Color
  | ColorRed : Color
deriving DecidableEq, Repr

/-- The fields of `widgets.Gauge` that `renderKeyHitPercent` computes. -/
structure Gauge where
  Title : String
  Percent : Int
  BarColor : Color
deriving DecidableEq, Repr

/-- The local `hp` of `renderKeyHitPercent` after the NaN test. -/
def hitPercent (t : Top) : Float64 :=
  let hp := Float64.ceil
    (Float64.mul
      (Float64.div (Float64.ofInt t.now.KeyspaceHits)
        (Float64.ofInt (wrapInt64 (t.now.KeyspaceHits + t.now.KeyspaceMisses))))
      (Float64.ofInt 100))
  if hp.isNaN then Float64.zero else hp

/-- The function `renderKeyHitPercent`; `none` where `int(hp)` is left to the
implementation. -/
def renderKeyHitPercent (t : Top) : Option Gauge :=
  match (hitPercent t).toInt64 with
  | none => none
  | some pct =>
    some { Title := " Keyspace Hit Ratio ", Percent := pct,
           BarColor := if pct < 50 then Color.ColorRed else Color.ColorGreen }

/-! ## Auxiliary definitions for the statements -/

/-- The five window lengths of a snapshot are all `k`. -/
def windowsHaveLength (i : Info) (k : Nat) : Prop :=
  i.QpsLine.length = k ∧ i.InputKbsLine.length = k ∧ i.OutputKbsLine.length = k ∧
  i.ConnectedClientLine.length = k ∧ i.BlockedClientsLine.length = k

/-- A line that the loop of `fetch` does not skip. -/
def kept (line : String) : Bool := !(strings.HasPrefix line "#" || line == "")

/-- The hit ratio of the specification: 0 when there were no lookups, otherwise
the ceiling of the exact quotient `100 * hits / (hits + misses)`. -/
def exactHitRatio (hits misses : Int) : Int :=
  if hits + misses = 0 then 0 else ⌈((100 * hits : Int) : ℚ) / ((hits + misses : Int) : ℚ)⌉

/-- A `Top` whose current snapshot has the given keyspace counters. -/
def hitTop (hits misses : Int) : Top :=
  { t := 0, prev := none,
    now := { Info.zero with KeyspaceHits := hits, KeyspaceMisses := misses } }

/-- Two snapshots two seconds apart with the CPU counters `10.0 -> 12.0` (sys) and
`5.0 -> 5.5` (user). -/
def twoSecondsTop (t0 : Time) : Top :=
  { t := 0,
    prev := some { Info.zero with t := t0,
                                  CpuSys := Float64.ofInt 10, CpuUser := Float64.ofInt 5 },
    now := { Info.zero with t := t0 + 2000000000,
                            CpuSys := Float64.ofInt 12, CpuUser := Float64.round false 11 2 0 } }

/-- The CPU rate of the specification for the cumulative counter `counter`: 0
when there is no previous snapshot, otherwise
`((now.counter - prev.counter) / elapsedSeconds) * 100` with
`elapsedSeconds = now.t - prev.t` in seconds, a not-a-number result clamped to 0. -/
def referenceCpuRate (counter : Info → Float64) (prev : Option Info) (now : Info) : Float64 :=
  match prev with
  | none => Float64.zero
  | some p =>
    Float64.nanToZero
      (Float64.mul
        (Float64.div (Float64.sub (counter now) (counter p))
          (Duration.Seconds (Time.Sub now.t p.t)))
        (Float64.ofInt 100))

/-- The memory percentage of the specification: 0 when `maxMemory` is 0, otherwise
`(usedMemory / maxMemory) * 100`, a not-a-number result clamped to 0. -/
def referenceMemoryPercent (now : Info) : Float64 :=
  if Float64.eq now.MaxMemery Float64.zero then Float64.zero
  else
    Float64.nanToZero
      (Float64.mul (Float64.div now.UsedMemory now.MaxMemery) (Float64.ofInt 100))

/-- Two snapshots two seconds apart with the CPU counters `10.0 -> 16.0` (sys) and
`5.0 -> 4.0` (user, a counter that was reset). -/
def burstTop (t0 : Time) : Top :=
  { t := 0,
    prev := some { Info.zero with t := t0,
                                  CpuSys := Float64.ofInt 10, CpuUser := Float64.ofInt 5 },
    now := { Info.zero with t := t0 + 2000000000,
                            CpuSys := Float64.ofInt 16, CpuUser := Float64.ofInt 4 } }

/-- A `Top` with the given memory gauges and no previous snapshot. -/
def memTop (used max : Float64) : Top :=
  { t := 0, prev := none, now := { Info.zero with UsedMemory := used, MaxMemery := max } }

/-- Two snapshots taken at the same instant, with the CPU counters
`10.0 -> 12.0` (sys) and `5.0 -> 5.5` (user). -/
def sameInstantTop : Top :=
  { t := 0,
    prev := some { Info.zero with t := 63929347200000000000,
                                  CpuSys := Float64.ofInt 10, CpuUser := Float64.ofInt 5 },
    now := { Info.zero with t := 63929347200000000000,
                            CpuSys := Float64.ofInt 12, CpuUser := Float64.round false 11 2 0 } }

/-- A first snapshot, stamped 2026-11-04 00:00:00 UTC, with `used_cpu_sys:10` and
`used_cpu_user:5`. -/
def firstItem : Info :=
  { Info.zero with t := 63929347200000000000, CpuSys := Float64.ofInt 10,
                   CpuUser := Float64.ofInt 5, Qps := 7, ConnectedClients := 3,
                   BlockedClients := 1,
                   InstantaneousInputKbps := Float64.ofInt 2,
                   InstantaneousOutputKbps := Float64.ofInt 4 }

end Rtop


/-! ## Lemmas on `Float64` -/

namespace Float64

theorem round_isNaN (s : Bool) (n d : Nat) (e : Int) : (round s n d e).isNaN = false := by
  simp only [round]
  split_ifs <;> rfl

theorem ofInt_100 : ofInt 100 = fin false 7036874417766400 (-46) := by decide

theorem add_fin_isNaN (s1 s2 : Bool) (m1 m2 : Nat) (e1 e2 : Int) :
    (add (fin s1 m1 e1) (fin s2 m2 e2)).isNaN = false := by
  simp only [add]
  split_ifs <;> first | rfl | exact round_isNaN _ _ _ _

theorem sub_isNaN_of_isFinite (x y : Float64) (hx : x.isFinite = true)
    (hy : y.isFinite = true) : (sub x y).isNaN = false := by
  cases x <;> cases y <;> simp [isFinite] at hx hy
  exact add_fin_isNaN _ _ _ _ _ _

theorem mul_100_isNaN (x : Float64) : (mul x (ofInt 100)).isNaN = x.isNaN := by
  rw [ofInt_100]
  cases x with
  | nan => rfl
  | inf s => simp [mul, isNaN]
  | fin s m e => simp only [mul]; rw [round_isNaN]; rfl

theorem div_isPos_isNaN (x y : Float64) (hy : y.isPos = true) :
    (div x y).isNaN = x.isNaN := by
  cases y with
  | nan => simp [isPos] at hy
  | inf s => simp [isPos] at hy
  | fin s m e =>
    simp [isPos] at hy
    cases x with
    | nan => rfl
    | inf a => rfl
    | fin a n k =>
      simp only [div, hy.2, if_false]
      rw [round_isNaN]; rfl

end Float64

/-! ## The rounding error of `Float64.round` -/

theorem bitLen_spec : ∀ (fuel n : Nat), n < 2 ^ fuel → 0 < n →
    2 ^ (bitLen fuel n - 1) ≤ n ∧ n < 2 ^ bitLen fuel n ∧ 0 < bitLen fuel n := by
  intro fuel
  induction fuel with
  | zero => intro n h1 h2; simp at h1; omega
  | succ f ih =>
    intro n h1 h2
    have hn : n ≠ 0 := by omega
    simp only [bitLen, hn, if_false]
    by_cases h0 : n / 2 = 0
    · have hn1 : n = 1 := by omega
      subst hn1
      cases f <;> simp [bitLen]
    · have hlt : n / 2 < 2 ^ f := by
        rw [Nat.div_lt_iff_lt_mul (by decide)]
        rw [pow_succ] at h1; exact h1
      obtain ⟨i1, i2, i3⟩ := ih (n / 2) hlt (by omega)
      refine ⟨?_, ?_, by omega⟩
      · have : bitLen f (n / 2) + 1 - 1 = (bitLen f (n / 2) - 1) + 1 := by omega
        rw [this, pow_succ]
        omega
      · rw [pow_succ]; omega

theorem bitLen_self (n : Nat) (h : 0 < n) :
    2 ^ (bitLen (n + 1) n - 1) ≤ n ∧ n < 2 ^ bitLen (n + 1) n ∧ 0 < bitLen (n + 1) n :=
  bitLen_spec (n + 1) n (Nat.lt_of_lt_of_le (Nat.lt_two_pow n) (Nat.pow_le_pow_right (by decide) (by omega))) h

namespace Float64

/-- The scaled quotient at `s0 = L - M - 53` lies in `[2^52, 2^54)`. -/
theorem scale_bounds (n d L M : Nat) (s0 : Int)
    (hn : 2 ^ (L - 1) ≤ n) (hn2 : n < 2 ^ L) (hd : 2 ^ (M - 1) ≤ d) (hd2 : d < 2 ^ M)
    (hL : 0 < L) (hM : 0 < M) (hs : s0 = (L : Int) - M - 53) :
    d * 2 ^ s0.toNat * 2 ^ 52 ≤ n * 2 ^ (-s0).toNat ∧
    n * 2 ^ (-s0).toNat < d * 2 ^ s0.toNat * 2 ^ 54 := by
  constructor
  · calc d * 2 ^ s0.toNat * 2 ^ 52 ≤ 2 ^ M * 2 ^ s0.toNat * 2 ^ 52 := by
          gcongr
      _ = 2 ^ (L - 1) * 2 ^ (-s0).toNat := by
          rw [← pow_add, ← pow_add, ← pow_add]; congr 1; omega
      _ ≤ n * 2 ^ (-s0).toNat := by gcongr
  · calc n * 2 ^ (-s0).toNat < 2 ^ L * 2 ^ (-s0).toNat := by
          gcongr
      _ = 2 ^ (M - 1) * 2 ^ s0.toNat * 2 ^ 54 := by
          rw [← pow_add, ← pow_add, ← pow_add]; congr 1; omega
      _ ≤ d * 2 ^ s0.toNat * 2 ^ 54 := by gcongr

theorem normShift_spec (n d : Nat) (hn : 0 < n) (hd : 0 < d) :
    d * 2 ^ (normShift n d).toNat * 2 ^ 52 ≤ n * 2 ^ (-(normShift n d)).toNat ∧
    n * 2 ^ (-(normShift n d)).toNat < d * 2 ^ (normShift n d).toNat * 2 ^ 53 ∧
    (bitLen (n + 1) n : Int) - bitLen (d + 1) d - 53 ≤ normShift n d ∧
    normShift n d ≤ (bitLen (n + 1) n : Int) - bitLen (d + 1) d - 52 := by
  obtain ⟨n1, n2, n3⟩ := bitLen_self n hn
  obtain ⟨d1, d2, d3⟩ := bitLen_self d hd
  obtain ⟨b1, b2⟩ := scale_bounds n d _ _ _ n1 n2 d1 d2 n3 d3 rfl
  simp only [normShift]
  generalize hs0 : (bitLen (n + 1) n : Int) - (bitLen (d + 1) d : Int) - 53 = s0 at b1 b2 ⊢
  by_cases hc : n * 2 ^ (-s0).toNat < d * 2 ^ s0.toNat * 2 ^ 53
  · rw [if_pos hc]
    exact ⟨b1, hc, le_refl _, by omega⟩
  · rw [if_neg hc]
    have hc2 : d * 2 ^ s0.toNat * 2 ^ 53 ≤ n * 2 ^ (-s0).toNat := by omega
    by_cases hneg : s0 < 0
    · have e1 : (s0 + 1).toNat = 0 := by omega
      have e2 : s0.toNat = 0 := by omega
      have e3 : (-s0).toNat = (-(s0 + 1)).toNat + 1 := by omega
      have hA : 2 ^ (-s0).toNat = 2 ^ (-(s0 + 1)).toNat * 2 := by rw [e3, pow_succ]
      rw [e2, hA] at hc2 b2
      rw [e1]
      generalize 2 ^ (-(s0 + 1)).toNat = A at hc2 b2 ⊢
      refine ⟨?_, ?_, by omega, by omega⟩
      · norm_num at hc2 ⊢; nlinarith
      · norm_num at b2 ⊢; nlinarith
    · have e1 : (s0 + 1).toNat = s0.toNat + 1 := by omega
      have e2 : (-(s0 + 1)).toNat = 0 := by omega
      have e3 : (-s0).toNat = 0 := by omega
      have hB : 2 ^ (s0 + 1).toNat = 2 ^ s0.toNat * 2 := by rw [e1, pow_succ]
      rw [e3] at hc2 b2
      rw [e2, hB]
      generalize 2 ^ s0.toNat = B at hc2 b2 ⊢
      refine ⟨?_, ?_, by omega, by omega⟩
      · norm_num at hc2 ⊢; nlinarith
      · norm_num at b2 ⊢; nlinarith

end Float64

namespace Float64

theorem rne_cases (num den : Nat) :
    (rne num den = num / den ∧ 2 * (num % den) ≤ den) ∨
    (rne num den = num / den + 1 ∧ den ≤ 2 * (num % den)) := by
  simp only [rne]
  split_ifs with h
  · right
    refine ⟨rfl, ?_⟩
    rcases h with h | h <;> omega
  · left
    refine ⟨rfl, ?_⟩
    omega

theorem rne_exact (num den : Nat) (hden : 0 < den) (h : den ∣ num) :
    rne num den = num / den := by
  have hr : num % den = 0 := Nat.mod_eq_zero_of_dvd h
  simp only [rne, hr]
  have : ¬ (den < 2 * 0 ∨ 2 * 0 = den ∧ num / den % 2 = 1) := by omega
  rw [if_neg this]

theorem rne_error (num den : Nat) (hden : 0 < den) :
    |((rne num den : Nat) : ℚ) - (num : ℚ) / (den : ℚ)| ≤ 1 / 2 := by
  have hd : (0 : ℚ) < den := by exact_mod_cast hden
  have hdiv : (num : ℚ) = (den : ℚ) * ((num / den : Nat) : ℚ) + ((num % den : Nat) : ℚ) := by
    exact_mod_cast (Nat.div_add_mod num den).symm
  have hq : (num : ℚ) / den = ((num / den : Nat) : ℚ) + ((num % den : Nat) : ℚ) / den := by
    rw [div_eq_iff hd.ne', add_mul, div_mul_cancel₀ _ hd.ne']; linarith
  rcases rne_cases num den with ⟨h1, h2⟩ | ⟨h1, h2⟩
  · rw [h1, hq]
    have h2q : 2 * ((num % den : Nat) : ℚ) ≤ den := by exact_mod_cast h2
    have : ((num / den : Nat) : ℚ) - (((num / den : Nat) : ℚ) + ((num % den : Nat) : ℚ) / den) =
        -(((num % den : Nat) : ℚ) / den) := by ring
    rw [this, abs_neg, abs_of_nonneg (by positivity)]
    rw [div_le_iff₀ hd]; linarith
  · rw [h1, hq]
    have h2q : (den : ℚ) ≤ 2 * ((num % den : Nat) : ℚ) := by exact_mod_cast h2
    have hlt : ((num % den : Nat) : ℚ) < den := by exact_mod_cast Nat.mod_lt num hden
    have : (((num / den + 1 : Nat)) : ℚ) - (((num / den : Nat) : ℚ) + ((num % den : Nat) : ℚ) / den) =
        1 - ((num % den : Nat) : ℚ) / den := by push_cast; ring
    rw [this]
    have h3 : ((num % den : Nat) : ℚ) / den ≤ 1 := by rw [div_le_iff₀ hd]; linarith
    have h4 : 1 / 2 ≤ ((num % den : Nat) : ℚ) / den := by rw [le_div_iff₀ hd]; linarith
    rw [abs_of_nonneg (by linarith)]
    linarith

end Float64

namespace Float64

theorem scaled_quotient (n d : Nat) (e s : Int) (hd : 0 < d) :
    ((n * 2 ^ (-s).toNat : Nat) : ℚ) / ((d * 2 ^ s.toNat : Nat) : ℚ) * (2 : ℚ) ^ (e + s) =
      (n : ℚ) / (d : ℚ) * (2 : ℚ) ^ e := by
  have hd' : (d : ℚ) ≠ 0 := by exact_mod_cast hd.ne'
  have h2 : (2 : ℚ) ≠ 0 := by norm_num
  push_cast
  rw [← zpow_natCast (2 : ℚ) (-s).toNat, ← zpow_natCast (2 : ℚ) s.toNat]
  have hs : e + s = e + ((s.toNat : ℤ) - ((-s).toNat : ℤ)) := by omega
  rw [hs, zpow_add₀ h2, zpow_sub₀ h2]
  field_simp
  ring

theorem round_normal (neg : Bool) (n d : Nat) (e : Int) (hn : 0 < n) (hd : 0 < d)
    (hlo : -1074 ≤ e + normShift n d) (hhi : e + normShift n d + 1 ≤ 971) :
    ∃ m ex, round neg n d e = fin neg m ex ∧ 2 ^ 52 ≤ m ∧ m < 2 ^ 53 ∧
      e + normShift n d ≤ ex ∧ ex ≤ e + normShift n d + 1 ∧
      (m : ℚ) * (2 : ℚ) ^ ex =
        ((rne (n * 2 ^ (-(normShift n d)).toNat) (d * 2 ^ (normShift n d).toNat) : Nat) : ℚ) *
          (2 : ℚ) ^ (e + normShift n d) := by
  obtain ⟨b1, b2, -, -⟩ := normShift_spec n d hn hd
  have hs : max (normShift n d) (-1074 - e) = normShift n d := max_eq_left (by omega)
  have hn0 : n ≠ 0 := by omega
  simp only [round, hn0, if_false, hs]
  generalize normShift n d = s at *
  have hden : 0 < d * 2 ^ s.toNat := by positivity
  have q1 : 2 ^ 52 ≤ n * 2 ^ (-s).toNat / (d * 2 ^ s.toNat) := by
    rw [Nat.le_div_iff_mul_le hden]
    calc 2 ^ 52 * (d * 2 ^ s.toNat) = d * 2 ^ s.toNat * 2 ^ 52 := by ring
      _ ≤ _ := b1
  have q2 : n * 2 ^ (-s).toNat / (d * 2 ^ s.toNat) < 2 ^ 53 := by
    rw [Nat.div_lt_iff_lt_mul hden]
    calc n * 2 ^ (-s).toNat < d * 2 ^ s.toNat * 2 ^ 53 := b2
      _ = 2 ^ 53 * (d * 2 ^ s.toNat) := by ring
  generalize hq : rne (n * 2 ^ (-s).toNat) (d * 2 ^ s.toNat) = q
  have hqb : 2 ^ 52 ≤ q ∧ q ≤ 2 ^ 53 := by
    rcases rne_cases (n * 2 ^ (-s).toNat) (d * 2 ^ s.toNat) with ⟨h1, -⟩ | ⟨h1, -⟩ <;>
      rw [hq] at h1 <;> omega
  by_cases hc : q = 2 ^ 53
  · refine ⟨2 ^ 52, e + s + 1, ?_, le_refl _, by norm_num, by omega, by omega, ?_⟩
    · have : ¬ (971 < e + s + 1) := by omega
      simp only [hc, if_true, this, if_false]
    · rw [hc, zpow_add₀ (by norm_num : (2 : ℚ) ≠ 0) (e + s) 1]
      push_cast
      ring
  · refine ⟨q, e + s, ?_, hqb.1, by omega, by omega, by omega, rfl⟩
    have : ¬ (971 < e + s) := by omega
    simp only [hc, if_false, this]

/-- In the normal range the rounded value is within `2^-53` of the exact one,
relative to the exact one. -/
theorem round_normal_error (neg : Bool) (n d : Nat) (e : Int) (hn : 0 < n) (hd : 0 < d)
    (hlo : -1074 ≤ e + normShift n d) (hhi : e + normShift n d + 1 ≤ 971) :
    ∃ m ex, round neg n d e = fin neg m ex ∧ 2 ^ 52 ≤ m ∧ m < 2 ^ 53 ∧
      e + normShift n d ≤ ex ∧ ex ≤ e + normShift n d + 1 ∧
      |(m : ℚ) * (2 : ℚ) ^ ex - (n : ℚ) / (d : ℚ) * (2 : ℚ) ^ e| ≤
        (n : ℚ) / (d : ℚ) * (2 : ℚ) ^ e / 2 ^ 53 := by
  obtain ⟨m, ex, h1, h2, h3, h4, h5, h6⟩ := round_normal neg n d e hn hd hlo hhi
  refine ⟨m, ex, h1, h2, h3, h4, h5, ?_⟩
  obtain ⟨b1, b2, -, -⟩ := normShift_spec n d hn hd
  rw [h6, ← scaled_quotient n d e (normShift n d) hd]
  generalize normShift n d = s at *
  have hden : 0 < d * 2 ^ s.toNat := by positivity
  have herr := rne_error (n * 2 ^ (-s).toNat) (d * 2 ^ s.toNat) hden
  have hdq : (0 : ℚ) < ((d * 2 ^ s.toNat : Nat) : ℚ) := by exact_mod_cast hden
  have hp : (0 : ℚ) < (2 : ℚ) ^ (e + s) := by positivity
  have hlow : (2 : ℚ) ^ 52 ≤ ((n * 2 ^ (-s).toNat : Nat) : ℚ) / ((d * 2 ^ s.toNat : Nat) : ℚ) := by
    rw [le_div_iff₀ hdq]
    have : ((d * 2 ^ s.toNat * 2 ^ 52 : Nat) : ℚ) ≤ ((n * 2 ^ (-s).toNat : Nat) : ℚ) := by
      exact_mod_cast b1
    push_cast at this ⊢
    linarith
  rw [← sub_mul, abs_mul, abs_of_pos hp]
  calc |((rne (n * 2 ^ (-s).toNat) (d * 2 ^ s.toNat) : Nat) : ℚ) -
          ((n * 2 ^ (-s).toNat : Nat) : ℚ) / ((d * 2 ^ s.toNat : Nat) : ℚ)| * (2 : ℚ) ^ (e + s)
      ≤ 1 / 2 * (2 : ℚ) ^ (e + s) := by gcongr
    _ = (2 : ℚ) ^ 52 * (2 : ℚ) ^ (e + s) / 2 ^ 53 := by norm_num; ring
    _ ≤ ((n * 2 ^ (-s).toNat : Nat) : ℚ) / ((d * 2 ^ s.toNat : Nat) : ℚ) * (2 : ℚ) ^ (e + s) /
          2 ^ 53 := by gcongr

end Float64

theorem bitLen_le_of_lt (n k : Nat) (hn : 0 < n) (h : n < 2 ^ k) : bitLen (n + 1) n ≤ k := by
  obtain ⟨h1, -, h3⟩ := bitLen_self n hn
  have : 2 ^ (bitLen (n + 1) n - 1) < 2 ^ k := lt_of_le_of_lt h1 h
  have := (Nat.pow_lt_pow_iff_right (by decide : 1 < 2)).mp this
  omega

theorem lt_bitLen_of_le (n k : Nat) (hn : 0 < n) (h : 2 ^ k ≤ n) : k < bitLen (n + 1) n := by
  obtain ⟨-, h2, -⟩ := bitLen_self n hn
  have : 2 ^ k < 2 ^ bitLen (n + 1) n := lt_of_le_of_lt h h2
  exact (Nat.pow_lt_pow_iff_right (by decide : 1 < 2)).mp this

theorem bitLen_one : bitLen (1 + 1) 1 = 1 := by decide

namespace Float64

/-- Bounds on the shift from bounds on the arguments. -/
theorem normShift_bounds (n d a b c : Nat) (hn : 0 < n) (hd : 0 < d)
    (h1 : 2 ^ a ≤ n) (h2 : n < 2 ^ b) (h3 : 2 ^ c ≤ d) (h4 : d < 2 ^ (c + 1)) :
    (a : Int) - c - 53 ≤ normShift n d ∧ normShift n d ≤ (b : Int) - c - 53 := by
  obtain ⟨-, -, s1, s2⟩ := normShift_spec n d hn hd
  have i1 := lt_bitLen_of_le n a hn h1
  have i2 := bitLen_le_of_lt n b hn h2
  have i3 := lt_bitLen_of_le d c hd h3
  have i4 := bitLen_le_of_lt d (c + 1) hd h4
  omega

theorem ofInt_zero : ofInt 0 = fin false 0 (-1074) := by decide

/-- The conversion of a positive integer below `2^63` is a normal number within
`2^-53` of it. -/
theorem ofInt_pos (z : Int) (hz : 0 < z) (hz2 : z < 2 ^ 63) :
    ∃ m e, ofInt z = fin false m e ∧ 2 ^ 52 ≤ m ∧ m < 2 ^ 53 ∧ -53 ≤ e ∧ e ≤ 11 ∧
      |(m : ℚ) * (2 : ℚ) ^ e - (z : ℚ)| ≤ (z : ℚ) / 2 ^ 53 := by
  have hn : 0 < z.natAbs := by omega
  have hn2 : z.natAbs < 2 ^ 63 := by omega
  have hneg : decide (z < 0) = false := by simp; omega
  obtain ⟨s1, s2⟩ := normShift_bounds z.natAbs 1 0 63 0 hn (by decide) (by rw [pow_zero]; omega)
    hn2 (by decide) (by decide)
  obtain ⟨m, e, h1, h2, h3, h4, h5, h6⟩ :=
    round_normal_error false z.natAbs 1 0 hn (by decide) (by omega) (by omega)
  refine ⟨m, e, ?_, h2, h3, by omega, by omega, ?_⟩
  · rw [ofInt, hneg, h1]
  · have hz' : ((z.natAbs : Nat) : ℚ) = (z : ℚ) := by
      have : ((z.natAbs : Nat) : Int) = z := Int.natAbs_of_nonneg hz.le
      rw [← Int.cast_natCast, this]
    simpa [hz'] using h6

end Float64

namespace Float64

theorem fin_value_div (m1 m2 : Nat) (e1 e2 : Int) :
    (m1 : ℚ) / (m2 : ℚ) * (2 : ℚ) ^ (e1 - e2) =
      ((m1 : ℚ) * (2 : ℚ) ^ e1) / ((m2 : ℚ) * (2 : ℚ) ^ e2) := by
  rw [zpow_sub₀ (by norm_num : (2 : ℚ) ≠ 0)]
  have : (2 : ℚ) ^ e2 ≠ 0 := by positivity
  by_cases h : (m2 : ℚ) = 0
  · simp [h]
  · field_simp

/-- The quotient of two normal positive numbers is a normal number within `2^-53`
of the exact quotient. -/
theorem div_normal (m1 m2 : Nat) (e1 e2 : Int) (h1 : 2 ^ 52 ≤ m1) (h1' : m1 < 2 ^ 53)
    (h2 : 2 ^ 52 ≤ m2) (h2' : m2 < 2 ^ 53) (hlo : -1021 ≤ e1 - e2) (hhi : e1 - e2 ≤ 1022) :
    ∃ m e, div (fin false m1 e1) (fin false m2 e2) = fin false m e ∧ 2 ^ 52 ≤ m ∧ m < 2 ^ 53 ∧
      e1 - e2 - 53 ≤ e ∧ e ≤ e1 - e2 - 51 ∧
      |(m : ℚ) * (2 : ℚ) ^ e - ((m1 : ℚ) * (2 : ℚ) ^ e1) / ((m2 : ℚ) * (2 : ℚ) ^ e2)| ≤
        ((m1 : ℚ) * (2 : ℚ) ^ e1) / ((m2 : ℚ) * (2 : ℚ) ^ e2) / 2 ^ 53 := by
  have hm1 : 0 < m1 := lt_of_lt_of_le (by positivity) h1
  have hm2 : 0 < m2 := lt_of_lt_of_le (by positivity) h2
  obtain ⟨s1, s2⟩ := normShift_bounds m1 m2 52 53 52 hm1 hm2 h1 h1' h2 h2'
  obtain ⟨m, e, g1, g2, g3, g4, g5, g6⟩ :=
    round_normal_error false m1 m2 (e1 - e2) hm1 hm2 (by omega) (by omega)
  refine ⟨m, e, ?_, g2, g3, by omega, by omega, ?_⟩
  · have : m2 ≠ 0 := by omega
    simp only [div, this, if_false, Bool.xor_false]
    exact g1
  · rw [fin_value_div] at g6
    exact g6

/-- The product of two normal positive numbers is a normal number within `2^-53`
of the exact product. -/
theorem mul_normal (m1 m2 : Nat) (e1 e2 : Int) (h1 : 2 ^ 52 ≤ m1) (h1' : m1 < 2 ^ 53)
    (h2 : 2 ^ 52 ≤ m2) (h2' : m2 < 2 ^ 53) (hlo : -1125 ≤ e1 + e2) (hhi : e1 + e2 ≤ 917) :
    ∃ m e, mul (fin false m1 e1) (fin false m2 e2) = fin false m e ∧ 2 ^ 52 ≤ m ∧ m < 2 ^ 53 ∧
      e1 + e2 + 51 ≤ e ∧ e ≤ e1 + e2 + 54 ∧
      |(m : ℚ) * (2 : ℚ) ^ e - ((m1 : ℚ) * (2 : ℚ) ^ e1) * ((m2 : ℚ) * (2 : ℚ) ^ e2)| ≤
        ((m1 : ℚ) * (2 : ℚ) ^ e1) * ((m2 : ℚ) * (2 : ℚ) ^ e2) / 2 ^ 53 := by
  have hlow : 2 ^ 104 ≤ m1 * m2 := by
    calc 2 ^ 104 = 2 ^ 52 * 2 ^ 52 := by norm_num
      _ ≤ m1 * m2 := Nat.mul_le_mul h1 h2
  have hupp : m1 * m2 < 2 ^ 106 := by
    calc m1 * m2 < 2 ^ 53 * 2 ^ 53 := Nat.mul_lt_mul'' h1' h2'
      _ = 2 ^ 106 := by norm_num
  have hn : 0 < m1 * m2 := lt_of_lt_of_le (by positivity) hlow
  obtain ⟨s1, s2⟩ := normShift_bounds (m1 * m2) 1 104 106 0 hn (by decide) hlow hupp
    (by decide) (by decide)
  obtain ⟨m, e, g1, g2, g3, g4, g5, g6⟩ :=
    round_normal_error false (m1 * m2) 1 (e1 + e2) hn (by decide) (by omega) (by omega)
  refine ⟨m, e, ?_, g2, g3, by omega, by omega, ?_⟩
  · simp only [mul, Bool.xor_false]
    exact g1
  · have : ((m1 * m2 : Nat) : ℚ) / ((1 : Nat) : ℚ) * (2 : ℚ) ^ (e1 + e2) =
        ((m1 : ℚ) * (2 : ℚ) ^ e1) * ((m2 : ℚ) * (2 : ℚ) ^ e2) := by
      rw [zpow_add₀ (by norm_num : (2 : ℚ) ≠ 0)]
      push_cast
      ring
    rw [this] at g6
    exact g6

end Float64

namespace Float64

theorem round_isPos (N : Nat) (e : Int) (A B : Nat) (hA : 2 ^ A ≤ N) (hB : N < 2 ^ B)
    (hlo : -1074 ≤ e + A - 53) (hhi : e + B - 53 + 1 ≤ 971) :
    (round false N 1 e).isPos = true := by
  have hn : 0 < N := lt_of_lt_of_le (by positivity) hA
  obtain ⟨s1, s2⟩ := normShift_bounds N 1 A B 0 hn (by decide) hA hB (by decide) (by decide)
  obtain ⟨m, ex, g1, g2, -⟩ := round_normal false N 1 e hn (by decide) (by omega) (by omega)
  rw [g1]
  have : m ≠ 0 := by
    have : 0 < m := lt_of_lt_of_le (by positivity) g2
    omega
  simp [isPos, this]

/-- The sum of two numbers that are zero or normal and positive, not both zero, is
a finite number above zero. -/
theorem add_isPos (m1 m2 : Nat) (e1 e2 : Int)
    (c1 : m1 = 0 ∨ (2 ^ 52 ≤ m1 ∧ -1073 ≤ e1)) (c2 : m2 = 0 ∨ (2 ^ 52 ≤ m2 ∧ -1073 ≤ e2))
    (hne : m1 ≠ 0 ∨ m2 ≠ 0) (b1 : m1 < 2 ^ 53) (b2 : m2 < 2 ^ 53)
    (u1 : e1 ≤ 969) (u2 : e2 ≤ 969) :
    (add (fin false m1 e1) (fin false m2 e2)).isPos = true := by
  simp only [add, Bool.false_eq_true, if_false, one_mul, Bool.and_self]
  generalize hk1 : (e1 - min e1 e2).toNat = k1
  generalize hk2 : (e2 - min e1 e2).toNat = k2
  have hsum : ((m1 * 2 ^ k1 : Nat) : Int) + ((m2 * 2 ^ k2 : Nat) : Int) =
      ((m1 * 2 ^ k1 + m2 * 2 ^ k2 : Nat) : Int) := by push_cast; ring
  rw [hsum]
  have hp1 : 0 < 2 ^ k1 := by positivity
  have hp2 : 0 < 2 ^ k2 := by positivity
  have hpos : 0 < m1 * 2 ^ k1 + m2 * 2 ^ k2 := by
    rcases hne with h | h
    · have : 0 < m1 * 2 ^ k1 := Nat.mul_pos (by omega) hp1
      omega
    · have : 0 < m2 * 2 ^ k2 := Nat.mul_pos (by omega) hp2
      omega
  have hnz : ¬ (((m1 * 2 ^ k1 + m2 * 2 ^ k2 : Nat) : Int) = 0) := by omega
  have hnn : decide (((m1 * 2 ^ k1 + m2 * 2 ^ k2 : Nat) : Int) < 0) = false := by
    have : ¬ (((m1 * 2 ^ k1 + m2 * 2 ^ k2 : Nat) : Int) < 0) := by omega
    exact decide_eq_false this
  rw [if_neg hnz, hnn, Int.natAbs_ofNat]
  have hupp : m1 * 2 ^ k1 + m2 * 2 ^ k2 < 2 ^ (54 + max k1 k2) := by
    have i1 : m1 * 2 ^ k1 < 2 ^ 53 * 2 ^ max k1 k2 :=
      Nat.mul_lt_mul_of_lt_of_le b1 (Nat.pow_le_pow_right (by decide) (le_max_left _ _)) (by positivity)
    have i2 : m2 * 2 ^ k2 < 2 ^ 53 * 2 ^ max k1 k2 :=
      Nat.mul_lt_mul_of_lt_of_le b2 (Nat.pow_le_pow_right (by decide) (le_max_right _ _)) (by positivity)
    have : 2 ^ (54 + max k1 k2) = 2 ^ 53 * 2 ^ max k1 k2 + 2 ^ 53 * 2 ^ max k1 k2 := by
      rw [pow_add]; norm_num; ring
    omega
  rcases hne with h | h
  · have hm : 2 ^ 52 ≤ m1 ∧ -1073 ≤ e1 := by rcases c1 with c | c; exact absurd c h; exact c
    have hlow : 2 ^ (52 + k1) ≤ m1 * 2 ^ k1 + m2 * 2 ^ k2 := by
      have : 2 ^ (52 + k1) ≤ m1 * 2 ^ k1 := by
        rw [pow_add]; exact Nat.mul_le_mul_right _ hm.1
      omega
    apply round_isPos _ _ (52 + k1) (54 + max k1 k2) hlow hupp
    · push_cast; omega
    · push_cast; omega
  · have hm : 2 ^ 52 ≤ m2 ∧ -1073 ≤ e2 := by rcases c2 with c | c; exact absurd c h; exact c
    have hlow : 2 ^ (52 + k2) ≤ m1 * 2 ^ k1 + m2 * 2 ^ k2 := by
      have : 2 ^ (52 + k2) ≤ m2 * 2 ^ k2 := by
        rw [pow_add]; exact Nat.mul_le_mul_right _ hm.1
      omega
    apply round_isPos _ _ (52 + k2) (54 + max k1 k2) hlow hupp
    · push_cast; omega
    · push_cast; omega

end Float64

namespace Float64

theorem ofInt_1e9 : ofInt 1000000000 = fin false 8388608000000000 (-23) := by decide

/-- The conversion of an integer in `[0, 2^63)` is `+0` or a normal positive number. -/
theorem ofInt_nonneg (z : Int) (hz : 0 ≤ z) (hz2 : z < 2 ^ 63) :
    ∃ m e, ofInt z = fin false m e ∧ m < 2 ^ 53 ∧ -1074 ≤ e ∧ e ≤ 11 ∧
      ((z = 0 ∧ m = 0) ∨ (0 < z ∧ 2 ^ 52 ≤ m ∧ -53 ≤ e)) := by
  by_cases h0 : z = 0
  · subst h0
    exact ⟨0, -1074, ofInt_zero, by norm_num, by norm_num, by norm_num, Or.inl ⟨rfl, rfl⟩⟩
  · obtain ⟨m, e, g1, g2, g3, g4, g5, -⟩ := ofInt_pos z (by omega) hz2
    exact ⟨m, e, g1, g3, by omega, g5, Or.inr ⟨by omega, g2, g4⟩⟩

end Float64

/-- The number of seconds of a positive duration is a finite number above zero. -/
theorem Duration.Seconds_isPos (d : Int) (h1 : 0 < d) (h2 : d < 2 ^ 63) :
    (Duration.Seconds d).isPos = true := by
  have hq : Int.tdiv d 1000000000 = d / 1000000000 := Int.tdiv_eq_ediv (by omega) (by norm_num)
  have hr : Int.tmod d 1000000000 = d % 1000000000 := Int.tmod_eq_emod (by omega) (by norm_num)
  simp only [Duration.Seconds, hq, hr, Float64.ofInt_1e9]
  obtain ⟨m1, e1, g1, g2, g3, g4, g5⟩ :=
    Float64.ofInt_nonneg (d / 1000000000) (by omega) (by omega)
  obtain ⟨m2, e2, k1, k2, k3, k4, k5⟩ :=
    Float64.ofInt_nonneg (d % 1000000000) (by omega) (by omega)
  rw [g1, k1]
  rcases k5 with ⟨kz, km⟩ | ⟨kz, km, ke⟩
  · -- no fractional part
    have hdiv : Float64.div (Float64.fin false m2 e2) (Float64.fin false 8388608000000000 (-23)) =
        Float64.fin false 0 (-1074) := by
      subst km
      simp [Float64.div, Float64.round]
    rw [hdiv]
    have hq0 : 0 < d / 1000000000 := by omega
    rcases g5 with ⟨gz, _⟩ | ⟨_, gm, ge⟩
    · omega
    · exact Float64.add_isPos m1 0 e1 (-1074) (Or.inr ⟨gm, by omega⟩) (Or.inl rfl)
        (Or.inl (by have : 0 < m1 := lt_of_lt_of_le (by positivity) gm
                    omega))
        g2 (by norm_num) (by omega) (by norm_num)
  · obtain ⟨m3, e3, j1, j2, j3, j4, j5, -⟩ :=
      Float64.div_normal m2 8388608000000000 e2 (-23) km k2 (by norm_num) (by norm_num)
        (by omega) (by omega)
    rw [j1]
    have hm3 : m3 ≠ 0 := by
      have : 0 < m3 := lt_of_lt_of_le (by positivity) j2
      omega
    refine Float64.add_isPos m1 m3 e1 e3 ?_ (Or.inr ⟨j2, by omega⟩) (Or.inr hm3) g2 j3
      (by omega) (by omega)
    rcases g5 with ⟨_, gm⟩ | ⟨_, gm, ge⟩
    · exact Or.inl gm
    · exact Or.inr ⟨gm, by omega⟩

/-- The elapsed time between two instants in order is positive and at most the
largest `Duration`. -/
theorem Time.Sub_pos (t u : Int) (h : u < t) :
    ∃ d : Int, Time.Sub t u = d ∧ 0 < d ∧ d < 2 ^ 63 := by
  refine ⟨if (2 ^ 63 - 1 : Int) < t - u then (2 ^ 63 - 1 : Int)
      else if t - u < -(2 ^ 63 : Int) then -(2 ^ 63 : Int) else t - u, rfl, ?_⟩
  split_ifs <;> constructor <;> omega

/-- The number of seconds between two instants in order is a finite number above
zero. -/
theorem Time.Sub_Seconds_isPos (t u : Int) (h : u < t) :
    (Duration.Seconds (Time.Sub t u)).isPos = true := by
  obtain ⟨d, h1, h2, h3⟩ := Time.Sub_pos t u h
  rw [h1]
  exact Duration.Seconds_isPos d h2 h3

namespace Float64

/-- A positive integer below `2^53` is converted exactly. -/
theorem round_exact_nat (c : Nat) (h0 : 0 < c) (h1 : c < 2 ^ 53) :
    ∃ m e, round false c 1 0 = fin false m e ∧ (m : ℚ) * (2 : ℚ) ^ e = (c : ℚ) := by
  obtain ⟨s1, s2⟩ := normShift_bounds c 1 0 53 0 h0 (by decide) (by rw [pow_zero]; omega) h1
    (by decide) (by decide)
  obtain ⟨m, e, g1, -, -, -, -, g6⟩ := round_normal false c 1 0 h0 (by decide) (by omega)
    (by omega)
  refine ⟨m, e, g1, ?_⟩
  rw [g6]
  have hs0 : (normShift c 1).toNat = 0 := by omega
  have hden : 1 * 2 ^ (normShift c 1).toNat = 1 := by rw [hs0]; rfl
  rw [hden, rne_exact _ 1 (by decide) (one_dvd _), Nat.div_one]
  have := scaled_quotient c 1 0 (normShift c 1) (by decide)
  rw [hden] at this
  simpa using this

/-- The conversion `int(f)` of a number whose value is the integer `c`. -/
theorem toInt64_of_value (m : Nat) (e : Int) (c : Nat) (hv : (m : ℚ) * (2 : ℚ) ^ e = (c : ℚ))
    (hc : c < 2 ^ 63) : toInt64 (fin false m e) = some (c : Int) := by
  have h2 : (2 : ℚ) ≠ 0 := by norm_num
  have he : e = (e.toNat : ℤ) - ((-e).toNat : ℤ) := by omega
  have hnat : m * 2 ^ e.toNat = c * 2 ^ (-e).toNat := by
    have : ((m * 2 ^ e.toNat : Nat) : ℚ) = ((c * 2 ^ (-e).toNat : Nat) : ℚ) := by
      push_cast
      rw [← hv, ← zpow_natCast (2 : ℚ) e.toNat, ← zpow_natCast (2 : ℚ) (-e).toNat]
      rw [mul_assoc, ← zpow_add₀ h2]
      congr 2
      omega
    exact_mod_cast this
  have ha : m * 2 ^ e.toNat / 2 ^ (-e).toNat = c := by
    rw [hnat]
    exact Nat.mul_div_cancel _ (by positivity)
  simp only [toInt64, ha, Bool.false_eq_true, if_false]
  have : -(2 : Int) ^ 63 ≤ (c : Int) ∧ (c : Int) < (2 : Int) ^ 63 := by
    constructor <;> omega
  rw [if_pos this]

/-- The ceiling of a normal positive number below `2^63` and its conversion to
an integer. -/
theorem ceil_normal (m : Nat) (e : Int) (h1 : 2 ^ 52 ≤ m) (h2 : m < 2 ^ 53) (he : e ≤ 10) :
    ∃ c : Nat, toInt64 (ceil (fin false m e)) = some (c : Int) ∧
      (ceil (fin false m e)).isNaN = false ∧
      (c : Int) = ⌈(m : ℚ) * (2 : ℚ) ^ e⌉ := by
  by_cases h0 : 0 ≤ e
  · have hc : ceil (fin false m e) = fin false m e := by simp [ceil, h0]
    rw [hc]
    have hv : (m : ℚ) * (2 : ℚ) ^ e = ((m * 2 ^ e.toNat : Nat) : ℚ) := by
      push_cast
      rw [← zpow_natCast (2 : ℚ) e.toNat]
      congr 2
      omega
    refine ⟨m * 2 ^ e.toNat, toInt64_of_value m e _ hv ?_, rfl, ?_⟩
    · calc m * 2 ^ e.toNat < 2 ^ 53 * 2 ^ 10 :=
            Nat.mul_lt_mul_of_lt_of_le h2 (Nat.pow_le_pow_right (by decide) (by omega))
              (by positivity)
        _ = 2 ^ 63 := by norm_num
    · rw [hv]
      exact_mod_cast (Int.ceil_natCast _).symm
  · generalize hk : (-e).toNat = k
    have hk1 : 1 ≤ k := by omega
    have hval : (m : ℚ) * (2 : ℚ) ^ e = (m : ℚ) / ((2 ^ k : Nat) : ℚ) := by
      have : e = -(k : ℤ) := by omega
      rw [this, zpow_neg, zpow_natCast]
      push_cast
      rfl
    have hpk : 2 ≤ 2 ^ k := by
      calc 2 = 2 ^ 1 := by norm_num
        _ ≤ 2 ^ k := Nat.pow_le_pow_right (by decide) hk1
    have hc : ceil (fin false m e) =
        round false (if m % 2 ^ k = 0 then m / 2 ^ k else m / 2 ^ k + 1) 1 0 := by
      simp only [ceil, h0, if_false, hk, Bool.false_eq_true]
    rw [hc, hval]
    generalize 2 ^ k = P at hpk ⊢
    have hdm := Nat.div_add_mod m P
    have hrlt : m % P < P := Nat.mod_lt _ (by omega)
    generalize m / P = q at hdm ⊢
    generalize m % P = r at hdm hrlt ⊢
    have hmpos : 0 < m := lt_of_lt_of_le (by positivity) h1
    have hPq : (0 : ℚ) < (P : ℚ) := by
      have : 0 < P := by omega
      exact_mod_cast this
    have hmq : (m : ℚ) = (P : ℚ) * (q : ℚ) + (r : ℚ) := by exact_mod_cast hdm.symm
    have hqlt : q < 2 ^ 52 := by
      by_contra hq
      have hq' : 2 ^ 52 ≤ q := by omega
      have : 2 * 2 ^ 52 ≤ P * q := Nat.mul_le_mul hpk hq'
      omega
    by_cases hr : r = 0
    · rw [if_pos hr]
      have hqpos : 0 < q := by
        by_contra hq
        have : q = 0 := by omega
        subst this
        omega
      obtain ⟨m5, e5, g1, g2⟩ := round_exact_nat q hqpos (by omega)
      rw [g1]
      refine ⟨q, toInt64_of_value m5 e5 q g2 (by omega), rfl, ?_⟩
      symm
      rw [Int.ceil_eq_iff, Int.cast_natCast]
      have hm' : (m : ℚ) / (P : ℚ) = (q : ℚ) := by
        rw [hmq, hr]; field_simp
      rw [hm']
      constructor <;> linarith
    · rw [if_neg hr]
      obtain ⟨m5, e5, g1, g2⟩ := round_exact_nat (q + 1) (by omega) (by omega)
      rw [g1]
      refine ⟨q + 1, toInt64_of_value m5 e5 (q + 1) g2 (by omega), rfl, ?_⟩
      symm
      rw [Int.ceil_eq_iff, Int.cast_natCast]
      have hr0 : (0 : ℚ) < (r : ℚ) := by
        have : 0 < r := by omega
        exact_mod_cast this
      have hr1 : (r : ℚ) < (P : ℚ) := by exact_mod_cast hrlt
      have hm' : (m : ℚ) / (P : ℚ) = (q : ℚ) + (r : ℚ) / (P : ℚ) := by
        rw [hmq]; field_simp; ring
      have h3 : (0 : ℚ) < (r : ℚ) / (P : ℚ) := by positivity
      have h4 : (r : ℚ) / (P : ℚ) < 1 := by rw [div_lt_one hPq]; exact hr1
      rw [hm']
      push_cast
      constructor <;> linarith

end Float64

namespace Float64

/-- Four roundings of relative error `ε ≤ 1/10000` move `100 * h / s` by at most
`1/2` when `0 < h ≤ s`. -/
theorem hit_ratio_error_aux (ε h s v1 v2 v3 v4 : ℚ) (hε : 0 ≤ ε) (hε' : ε ≤ 1 / 10000)
    (hh : 0 < h) (hhs : h ≤ s)
    (e1 : |v1 - h| ≤ ε * h) (e2 : |v2 - s| ≤ ε * s)
    (e3 : |v3 - v1 / v2| ≤ ε * (v1 / v2)) (e4 : |v4 - v3 * 100| ≤ ε * (v3 * 100)) :
    |v4 - 100 * h / s| ≤ 1 / 2 := by
  have hs : 0 < s := lt_of_lt_of_le hh hhs
  rw [abs_le] at e1 e2 e3 e4
  obtain ⟨a1, b1⟩ := e1
  obtain ⟨a2, b2⟩ := e2
  obtain ⟨a3, b3⟩ := e3
  obtain ⟨a4, b4⟩ := e4
  have u1 : v1 ≤ (1 + ε) * h := by linarith
  have l1 : (1 - ε) * h ≤ v1 := by linarith
  have u2 : v2 ≤ (1 + ε) * s := by linarith
  have l2 : (1 - ε) * s ≤ v2 := by linarith
  have hv1 : 0 < v1 := lt_of_lt_of_le (mul_pos (by linarith) hh) l1
  have hv2 : 0 < v2 := lt_of_lt_of_le (mul_pos (by linarith) hs) l2
  have hR : h / s ≤ 1 := by rw [div_le_one hs]; exact hhs
  have hRpos : 0 < h / s := by positivity
  have hhR : h = h / s * s := by field_simp
  -- the quotient of the rounded counters
  have q1 : v1 / v2 ≤ 1001 / 1000 * (h / s) := by
    rw [div_le_iff₀ hv2]
    calc v1 ≤ (1 + ε) * h := u1
      _ = (1 + ε) * (h / s) * s := by rw [mul_assoc, ← hhR]
      _ ≤ 1001 / 1000 * (1 - ε) * (h / s) * s := by
          have : 1 + ε ≤ 1001 / 1000 * (1 - ε) := by linarith
          have := mul_le_mul_of_nonneg_right this (le_of_lt hRpos)
          exact mul_le_mul_of_nonneg_right this (le_of_lt hs)
      _ = 1001 / 1000 * (h / s) * ((1 - ε) * s) := by ring
      _ ≤ 1001 / 1000 * (h / s) * v2 := mul_le_mul_of_nonneg_left l2 (by positivity)
  have q2 : 999 / 1000 * (h / s) ≤ v1 / v2 := by
    rw [le_div_iff₀ hv2]
    calc 999 / 1000 * (h / s) * v2 ≤ 999 / 1000 * (h / s) * ((1 + ε) * s) :=
          mul_le_mul_of_nonneg_left u2 (by positivity)
      _ = 999 / 1000 * (1 + ε) * (h / s) * s := by ring
      _ ≤ (1 - ε) * (h / s) * s := by
          have : 999 / 1000 * (1 + ε) ≤ 1 - ε := by linarith
          have := mul_le_mul_of_nonneg_right this (le_of_lt hRpos)
          exact mul_le_mul_of_nonneg_right this (le_of_lt hs)
      _ = (1 - ε) * h := by rw [mul_assoc, ← hhR]
      _ ≤ v1 := l1
  have hq : 0 < v1 / v2 := by positivity
  -- the rounded quotient
  have r1 : v3 ≤ 1002 / 1000 * (h / s) := by
    calc v3 ≤ (1 + ε) * (v1 / v2) := by linarith
      _ ≤ (1 + ε) * (1001 / 1000 * (h / s)) := mul_le_mul_of_nonneg_left q1 (by linarith)
      _ = (1 + ε) * (1001 / 1000) * (h / s) := by ring
      _ ≤ 1002 / 1000 * (h / s) :=
          mul_le_mul_of_nonneg_right (by linarith) (le_of_lt hRpos)
  have r2 : 998 / 1000 * (h / s) ≤ v3 := by
    calc 998 / 1000 * (h / s) ≤ (1 - ε) * (999 / 1000) * (h / s) :=
          mul_le_mul_of_nonneg_right (by linarith) (le_of_lt hRpos)
      _ = (1 - ε) * (999 / 1000 * (h / s)) := by ring
      _ ≤ (1 - ε) * (v1 / v2) := mul_le_mul_of_nonneg_left q2 (by linarith)
      _ ≤ v3 := by linarith
  have hv3 : 0 < v3 := lt_of_lt_of_le (by positivity) r2
  -- the rounded product
  have t1 : v4 ≤ 1003 / 1000 * (100 * (h / s)) := by
    calc v4 ≤ (1 + ε) * (v3 * 100) := by linarith
      _ ≤ (1 + ε) * (1002 / 1000 * (h / s) * 100) :=
          mul_le_mul_of_nonneg_left (by linarith) (by linarith)
      _ = (1 + ε) * (1002 / 1000) * (100 * (h / s)) := by ring
      _ ≤ 1003 / 1000 * (100 * (h / s)) :=
          mul_le_mul_of_nonneg_right (by linarith) (by positivity)
  have t2 : 997 / 1000 * (100 * (h / s)) ≤ v4 := by
    calc 997 / 1000 * (100 * (h / s)) ≤ (1 - ε) * (998 / 1000) * (100 * (h / s)) :=
          mul_le_mul_of_nonneg_right (by linarith) (by positivity)
      _ = (1 - ε) * (998 / 1000 * (h / s) * 100) := by ring
      _ ≤ (1 - ε) * (v3 * 100) := mul_le_mul_of_nonneg_left (by linarith) (by linarith)
      _ ≤ v4 := by linarith
  have hX : 100 * h / s = 100 * (h / s) := by ring
  rw [hX, abs_le]
  constructor <;> linarith

theorem hit_ratio_error (h s v1 v2 v3 v4 : ℚ) (hh : 0 < h) (hhs : h ≤ s)
    (e1 : |v1 - h| ≤ h / 2 ^ 53) (e2 : |v2 - s| ≤ s / 2 ^ 53)
    (e3 : |v3 - v1 / v2| ≤ v1 / v2 / 2 ^ 53) (e4 : |v4 - v3 * 100| ≤ v3 * 100 / 2 ^ 53) :
    |v4 - 100 * h / s| ≤ 1 / 2 := by
  have c : ∀ x : ℚ, x / 2 ^ 53 = 1 / 2 ^ 53 * x := fun x => by ring
  rw [c] at e1 e2 e3 e4
  exact hit_ratio_error_aux (1 / 2 ^ 53) h s v1 v2 v3 v4 (by positivity) (by norm_num) hh hhs
    e1 e2 e3 e4

/-- Two numbers at most `1/2` apart have ceilings at most 1 apart. -/
theorem ceil_near (x y : ℚ) (h : |x - y| ≤ 1 / 2) : |⌈x⌉ - ⌈y⌉| ≤ 1 := by
  rw [abs_le] at h ⊢
  have h1 : ⌈x⌉ ≤ ⌈y⌉ + 1 := by
    rw [← Int.ceil_add_one]
    exact Int.ceil_le_ceil (by linarith)
  have h2 : ⌈y⌉ ≤ ⌈x⌉ + 1 := by
    rw [← Int.ceil_add_one]
    exact Int.ceil_le_ceil (by linarith)
  constructor <;> linarith

end Float64

/-! ## Lemmas on `strconv` -/

namespace strconv

theorem le_digitsValue (cs : List Char) : ∀ n, n ≤ digitsValue n cs := by
  induction cs with
  | nil => intro n; exact Nat.le_refl _
  | cons c cs ih =>
    intro n
    have := ih (n * 10 + (c.toNat - 48))
    simp only [digitsValue, List.foldl_cons] at this ⊢
    omega

theorem digitsValue_mono (cs : List Char) : ∀ a b, a ≤ b → digitsValue a cs ≤ digitsValue b cs := by
  induction cs with
  | nil => intro a b h; exact h
  | cons c cs ih =>
    intro a b h
    simp only [digitsValue, List.foldl_cons]
    exact ih _ _ (by omega)

theorem parseUintLoop_spec (cs : List Char) : ∀ n, n ≤ maxUint64 →
    parseUintLoop cs n =
      if maxUint64 < digitsValue n (cs.takeWhile isDigit) then
        (maxUint64, some NumError.ErrRange)
      else if cs.takeWhile isDigit ≠ cs then (0, some NumError.ErrSyntax)
      else (digitsValue n cs, none) := by
  induction cs with
  | nil =>
    intro n hn
    have : ¬ (maxUint64 < n) := by omega
    simp [parseUintLoop, digitsValue, this]
  | cons c cs ih =>
    intro n hn
    by_cases hd : isDigit c = true
    · have hd2 : 48 ≤ c.toNat ∧ c.toNat ≤ 57 := by simpa [isDigit] using hd
      have hlt : ¬ (10 ≤ c.toNat - 48) := by omega
      have htw : (c :: cs).takeWhile isDigit = c :: cs.takeWhile isDigit := by
        simp [List.takeWhile, hd]
      have hne : (c :: cs.takeWhile isDigit ≠ c :: cs) ↔ (cs.takeWhile isDigit ≠ cs) := by
        simp
      rw [htw]
      simp only [parseUintLoop, hd2, and_self, if_true, hlt, if_false]
      have hdv : ∀ l, digitsValue n (c :: l) = digitsValue (n * 10 + (c.toNat - 48)) l := by
        intro l; rfl
      rw [hdv, hdv]
      by_cases hcut : maxUint64 / 10 + 1 ≤ n
      · have h1 := le_digitsValue (cs.takeWhile isDigit) (n * 10 + (c.toNat - 48))
        have : maxUint64 < digitsValue (n * 10 + (c.toNat - 48)) (cs.takeWhile isDigit) := by
          simp only [maxUint64] at hcut ⊢; omega
        simp [hcut, this]
      · simp only [hcut, if_false]
        have hn10 : n * 10 % 2 ^ 64 = n * 10 := by
          apply Nat.mod_eq_of_lt
          simp only [maxUint64] at hcut; omega
        rw [hn10]
        by_cases hov : maxUint64 < n * 10 + (c.toNat - 48)
        · have h1 := le_digitsValue (cs.takeWhile isDigit) (n * 10 + (c.toNat - 48))
          have h2 : maxUint64 < digitsValue (n * 10 + (c.toNat - 48)) (cs.takeWhile isDigit) := by
            omega
          have h3 : (n * 10 + (c.toNat - 48)) % 2 ^ 64 < n * 10 := by
            simp only [maxUint64] at hov hcut; omega
          rw [if_pos (Or.inl h3), if_pos h2]
        · have h3 : (n * 10 + (c.toNat - 48)) % 2 ^ 64 = n * 10 + (c.toNat - 48) := by
            apply Nat.mod_eq_of_lt
            simp only [maxUint64] at hov; omega
          rw [h3]
          have h4 : ¬ (n * 10 + (c.toNat - 48) < n * 10 ∨ maxUint64 < n * 10 + (c.toNat - 48)) := by
            omega
          simp only [h4, if_false]
          rw [ih _ (by omega)]
          simp only [hne]
    · have htw : (c :: cs).takeWhile isDigit = [] := by
        simp [List.takeWhile, hd]
      rw [htw]
      have hd2 : ¬ (48 ≤ c.toNat ∧ c.toNat ≤ 57) := by simpa [isDigit] using hd
      have hn2 : ¬ (maxUint64 < digitsValue n []) := by simp [digitsValue]; omega
      simp only [hn2, if_false]
      have : ([] : List Char) ≠ c :: cs := by simp
      simp only [this, ne_eq, not_false_eq_true, if_true]
      simp only [parseUintLoop, hd2, if_false]
      by_cases hl : 97 ≤ lower c ∧ lower c ≤ 122
      · have : 10 ≤ lower c - 97 + 10 := by omega
        simp [hl, this]
      · simp [hl]


theorem takeWhile_eq_self_iff (cs : List Char) :
    cs.takeWhile isDigit = cs ↔ cs.all isDigit = true := by
  induction cs with
  | nil => simp
  | cons c cs ih =>
    by_cases hd : isDigit c = true
    · simp [List.takeWhile, hd, ih]
    · simp [List.takeWhile, hd]

/-- What `ParseInt(s, 10, 64)` returns, in terms of the text. -/
theorem ParseInt_spec (s : String) :
    ParseInt s =
      if signBody s.data = [] then (0, some NumError.ErrSyntax)
      else if maxUint64 < digitsValue 0 (leadingDigits s) then
        (if hasMinus s.data then -(2 ^ 63) else 2 ^ 63 - 1, some NumError.ErrRange)
      else if decimalSyntax s = false then (0, some NumError.ErrSyntax)
      else if 2 ^ 63 ≤ decimalValue s then (2 ^ 63 - 1, some NumError.ErrRange)
      else if decimalValue s < -(2 ^ 63) then (-(2 ^ 63), some NumError.ErrRange)
      else (decimalValue s, none) := by
  obtain ⟨l⟩ := s
  cases l with
  | nil => simp [ParseInt, signBody]
  | cons c cs =>
    simp only [ParseInt, ParseUint]
    have hb : (if (c == Char.ofNat 43 || c == Char.ofNat 45) = true then cs else c :: cs) =
        signBody (c :: cs) := by
      simp [signBody]
    rw [hb]
    by_cases he : signBody (c :: cs) = []
    · simp [he]
    · simp only [he, if_false]
      rw [parseUintLoop_spec _ 0 (by decide)]
      simp only [leadingDigits]
      by_cases hov : maxUint64 < digitsValue 0 (List.takeWhile isDigit (signBody (c :: cs)))
      · simp only [hov, if_true]
        by_cases hm : (c == Char.ofNat 45) = true
        · simp [hm, hasMinus, maxUint64]
        · simp [hm, hasMinus, maxUint64]
      · simp only [hov, if_false]
        by_cases hall : (signBody (c :: cs)).all isDigit = true
        · have htw := (takeWhile_eq_self_iff _).mpr hall
          have hsyn : decimalSyntax (String.mk (c :: cs)) = true := by
            simp only [decimalSyntax, hall, Bool.and_true, Bool.not_eq_true', List.isEmpty_eq_false]
            exact he
          simp only [htw, ne_eq, not_true_eq_false, if_false, hsyn, Bool.true_eq_false]
          by_cases hm : (c == Char.ofNat 45) = true
          · have hv : decimalValue (String.mk (c :: cs)) =
                -(digitsValue 0 (signBody (c :: cs)) : Int) := by
              simp [decimalValue, hasMinus, hm]
            rw [hv]
            generalize digitsValue 0 (signBody (c :: cs)) = u
            have hns : ¬ ((none : Option NumError) = some NumError.ErrSyntax) := by simp
            simp only [hns, hm, Bool.not_true, Bool.false_and, Bool.false_eq_true, if_false,
              Bool.true_and, decide_eq_true_eq, if_true]
            split_ifs <;> first | rfl | (exfalso; omega)
          · have hv : decimalValue (String.mk (c :: cs)) =
                (digitsValue 0 (signBody (c :: cs)) : Int) := by
              simp [decimalValue, hasMinus, hm]
            rw [hv]
            generalize digitsValue 0 (signBody (c :: cs)) = u
            have hns : ¬ ((none : Option NumError) = some NumError.ErrSyntax) := by simp
            simp only [hns, hm, Bool.not_false, Bool.false_and, Bool.false_eq_true, if_false,
              Bool.true_and, decide_eq_true_eq]
            split_ifs <;> first | rfl | (exfalso; omega)
        · have htw : List.takeWhile isDigit (signBody (c :: cs)) ≠ signBody (c :: cs) :=
            fun h => hall ((takeWhile_eq_self_iff _).mp h)
          have hsyn : decimalSyntax (String.mk (c :: cs)) = false := by
            simp only [decimalSyntax]
            simp [hall]
          simp [htw, hsyn]

/-! ### The function `ParseFloat` -/

theorem ParseFloat_syntax_zero (s : String)
    (h : (ParseFloat s).2 = some NumError.ErrSyntax) : (ParseFloat s).1 = Float64.zero := by
  unfold ParseFloat at h ⊢
  cases hsp : special s.data with
  | some fn =>
    obtain ⟨f, n⟩ := fn
    simp only [hsp] at h ⊢
    by_cases hn : n = s.data.length
    · rw [if_pos hn] at h; simp at h
    · rw [if_neg hn]
  | none =>
    simp only [hsp] at h ⊢
    cases hr : readFloat s.data with
    | none => simp
    | some pr =>
      obtain ⟨p, rest⟩ := pr
      simp only [hr] at h ⊢
      by_cases hrest : rest = []
      · simp only [hrest, ne_eq, not_true_eq_false, if_false] at h ⊢
        cases hv : p.value <;> simp [hv] at h
      · simp [hrest]

theorem mantissaLoop_no_digit (l : List Char) :
    ∀ st : Mantissa, (∀ c ∈ l, isDigit c = false) → st.sawdigits = false →
      (mantissaLoop false l st).1.sawdigits = false := by
  induction l with
  | nil => intro st _ h; simpa [mantissaLoop] using h
  | cons c cs ih =>
    intro st hnd h
    have hc : ¬ (48 ≤ c.toNat ∧ c.toNat ≤ 57) := by
      have := hnd c (List.mem_cons_self _ _)
      simpa [isDigit] using this
    have hcs : ∀ c ∈ cs, isDigit c = false := fun x hx => hnd x (List.mem_cons_of_mem _ hx)
    simp only [mantissaLoop, hc, if_false, Bool.false_eq_true, false_and]
    split_ifs
    · exact ih _ hcs h
    · exact h
    · exact ih _ hcs h
    · exact h

theorem readFloat_no_digit (l : List Char) (hnd : ∀ c ∈ l, isDigit c = false) :
    readFloat l = none := by
  cases l with
  | nil => rfl
  | cons c0 cs0 =>
    simp only [readFloat]
    generalize hr0 : (if c0 = '+' ∨ c0 = '-' then cs0 else c0 :: cs0) = r0
    have hr0nd : ∀ c ∈ r0, isDigit c = false := by
      intro c hc
      rw [← hr0] at hc
      split_ifs at hc
      · exact hnd c (List.mem_cons_of_mem _ hc)
      · exact hnd c hc
    have hhex : hasHexPrefix r0 = false := by
      match r0, hr0nd with
      | [], _ => rfl
      | [_], _ => rfl
      | [_, _], _ => rfl
      | z :: x :: y :: rest, h =>
        have hz := h z (List.mem_cons_self _ _)
        have : z ≠ '0' := by
          intro hz0
          rw [hz0] at hz
          exact absurd hz (by decide)
        simp [hasHexPrefix, this]
    rw [hhex]
    simp only [Bool.false_eq_true, if_false]
    have := mantissaLoop_no_digit r0
      { sawdot := false, sawdigits := false, nd := 0, dp := 0, mant := 0, underscores := false }
      hr0nd rfl
    cases hm : mantissaLoop false r0
      { sawdot := false, sawdigits := false, nd := 0, dp := 0, mant := 0, underscores := false }
    rename_i st r2
    rw [hm] at this
    simp only at this
    simp [this]


theorem commonPrefixLen_le (l : List Char) : ∀ p, commonPrefixLenIgnoreCase l p ≤ l.length := by
  induction l with
  | nil => intro p; simp [commonPrefixLenIgnoreCase]
  | cons c cs ih =>
    intro p
    cases p with
    | nil => simp [commonPrefixLenIgnoreCase]
    | cons q qs =>
      simp only [commonPrefixLenIgnoreCase, List.length_cons]
      generalize (if 65 ≤ c.toNat ∧ c.toNat ≤ 90 then c.toNat + 32 else c.toNat) = lc
      by_cases hne : lc ≠ q.toNat
      · rw [if_pos hne]; omega
      · rw [if_neg hne]; have := ih qs; omega

theorem commonPrefixLen_full (l : List Char) :
    ∀ p, commonPrefixLenIgnoreCase l p = l.length →
      lowerCodes l = (p.take l.length).map Char.toNat := by
  induction l with
  | nil => intro p _; simp [lowerCodes]
  | cons c cs ih =>
    intro p h
    cases p with
    | nil => simp [commonPrefixLenIgnoreCase] at h
    | cons q qs =>
      simp only [commonPrefixLenIgnoreCase, List.length_cons] at h
      simp only [lowerCodes, List.map_cons, List.length_cons, List.take_succ_cons]
      generalize (if 65 ≤ c.toNat ∧ c.toNat ≤ 90 then c.toNat + 32 else c.toNat) = lc at h ⊢
      by_cases hne : lc ≠ q.toNat
      · rw [if_pos hne] at h; omega
      · rw [if_neg hne] at h
        have hcs := ih qs (by omega)
        simp only [lowerCodes] at hcs
        rw [hcs]
        simp only [ne_eq, not_not] at hne
        rw [hne]

/-- The prefix test of `special` against `infinity` when the whole text matched. -/
theorem infinity_full (l : List Char) (h38 : infinityLen l = 3 ∨ infinityLen l = 8)
    (hlen : infinityLen l = l.length) :
    lowerCodes l = [105, 110, 102] ∨
    lowerCodes l = [105, 110, 102, 105, 110, 105, 116, 121] := by
  have hle := commonPrefixLen_le l "infinity".data
  have hfull : commonPrefixLenIgnoreCase l "infinity".data = l.length := by
    unfold infinityLen at hlen
    generalize commonPrefixLenIgnoreCase l "infinity".data = n at hlen hle ⊢
    split_ifs at hlen <;> omega
  have := commonPrefixLen_full l "infinity".data hfull
  rcases h38 with h | h
  · left
    rw [this, ← hlen, h]
    decide
  · right
    rw [this, ← hlen, h]
    decide

theorem special_full (s : String) (f : Float64) (n : Nat)
    (h : special s.data = some (f, n)) (hn : n = s.data.length) : isSpecialText s = true := by
  obtain ⟨l⟩ := s
  cases l with
  | nil => simp [special] at h
  | cons c cs =>
    simp only [special] at h
    by_cases hsign : c = '+' ∨ c = '-'
    · rw [if_pos hsign] at h
      have hbody : signBody (c :: cs) = cs := by
        have : c = Char.ofNat 43 ∨ c = Char.ofNat 45 := hsign
        simp [signBody, this]
      by_cases h38 : infinityLen cs = 3 ∨ infinityLen cs = 8
      · rw [if_pos h38] at h
        simp only [Option.some.injEq, Prod.mk.injEq] at h
        obtain ⟨-, hn'⟩ := h
        have := infinity_full cs h38 (by simp only [List.length_cons] at hn; omega)
        simp only [isSpecialText, hbody]
        rcases this with h1 | h1 <;> simp [h1]
      · rw [if_neg h38] at h
        simp at h
    · rw [if_neg hsign] at h
      have hbody : signBody (c :: cs) = c :: cs := by
        have : ¬ (c = Char.ofNat 43 ∨ c = Char.ofNat 45) := hsign
        simp [signBody, this]
      by_cases hi : c = 'i' ∨ c = 'I'
      · rw [if_pos hi] at h
        by_cases h38 : infinityLen (c :: cs) = 3 ∨ infinityLen (c :: cs) = 8
        · rw [if_pos h38] at h
          simp only [Option.some.injEq, Prod.mk.injEq] at h
          obtain ⟨-, hn'⟩ := h
          have := infinity_full (c :: cs) h38 (by rw [hn']; exact hn)
          simp only [isSpecialText, hbody]
          rcases this with h1 | h1 <;> simp [h1]
        · rw [if_neg h38] at h
          simp at h
      · rw [if_neg hi] at h
        by_cases hnn : c = 'n' ∨ c = 'N'
        · rw [if_pos hnn] at h
          by_cases h3 : commonPrefixLenIgnoreCase (c :: cs) "nan".data = 3
          · rw [if_pos h3] at h
            simp only [Option.some.injEq, Prod.mk.injEq] at h
            obtain ⟨-, hn'⟩ := h
            have hl : (c :: cs).length = 3 := by rw [← hn]; exact hn'.symm
            have hfull : commonPrefixLenIgnoreCase (c :: cs) "nan".data = (c :: cs).length := by
              rw [h3, hl]
            have := commonPrefixLen_full (c :: cs) "nan".data hfull
            rw [hl] at this
            have h1 : (lowerCodes (c :: cs) == [110, 97, 110]) = true := by
              rw [this]
              decide
            simp only [isSpecialText, h1, Bool.true_or]
          · rw [if_neg h3] at h
            simp at h
        · rw [if_neg hnn] at h
          simp at h

/-- A text without any decimal digit that is none of `inf`, `infinity` and `nan`
is rejected by `ParseFloat` with the value 0. -/
theorem ParseFloat_no_digit (s : String) (hnd : ∀ c ∈ s.data, isDigit c = false)
    (hsp : isSpecialText s = false) :
    ParseFloat s = (Float64.zero, some NumError.ErrSyntax) := by
  unfold ParseFloat
  cases h : special s.data with
  | some fn =>
    obtain ⟨f, n⟩ := fn
    simp only
    by_cases hn : n = s.data.length
    · have := special_full s f n h hn
      rw [hsp] at this
      exact absurd this (by decide)
    · rw [if_neg hn]
  | none =>
    simp only [readFloat_no_digit s.data hnd]

theorem round_inf_sign (neg : Bool) (n d : Nat) (e : Int) (b : Bool)
    (h : Float64.round neg n d e = Float64.inf b) : b = neg := by
  unfold Float64.round at h
  simp only at h
  split_ifs at h
  all_goals first
    | (cases h; done)
    | (cases h; rfl)

theorem FloatParts.value_inf_sign (p : FloatParts) (b : Bool)
    (h : p.value = Float64.inf b) : b = p.neg := by
  unfold FloatParts.value at h
  split_ifs at h <;> exact round_inf_sign _ _ _ _ _ h

theorem some_neg_aux (c : Prop) [Decidable c] (fp p : FloatParts) (r rest : List Char)
    (h : (if c then none else some (fp, r)) = some (p, rest)) : p.neg = fp.neg := by
  by_cases hc : c
  · rw [if_pos hc] at h; cases h
  · rw [if_neg hc] at h; cases h; rfl

theorem readFloat_neg (s : List Char) (p : FloatParts) (rest : List Char)
    (h : readFloat s = some (p, rest)) : p.neg = hasMinus s := by
  cases s with
  | nil => simp [readFloat] at h
  | cons c0 cs0 =>
    have hm : hasMinus (c0 :: cs0) = (c0 == '-') := rfl
    rw [hm]
    unfold readFloat at h
    simp only at h
    generalize mantissaLoop _ _ _ = ml at h
    obtain ⟨st, r2⟩ := ml
    simp only at h
    generalize hasHexPrefix _ = hex at h
    by_cases hsd : st.sawdigits = false
    · rw [if_pos hsd] at h; cases h
    · rw [if_neg hsd] at h
      cases r2 with
      | nil =>
        simp only at h
        by_cases hh : hex = true
        · rw [if_pos hh] at h; cases h
        · rw [if_neg hh] at h
          exact some_neg_aux _ _ _ _ _ h
      | cons c cs =>
        simp only at h
        by_cases hl : lower c = if hex = true then 112 else 101
        · rw [if_pos hl] at h
          cases cs with
          | nil => cases h
          | cons c2 cs2 =>
            simp only at h
            generalize (if c2 = '+' ∨ c2 = '-' then cs2 else c2 :: cs2) = r3 at h
            cases r3 with
            | nil => cases h
            | cons d tl =>
              simp only at h
              by_cases hd : 48 ≤ d.toNat ∧ d.toNat ≤ 57
              · rw [if_pos hd] at h
                exact some_neg_aux _ _ _ _ _ h
              · rw [if_neg hd] at h; cases h
        · rw [if_neg hl] at h
          by_cases hh : hex = true
          · rw [if_pos hh] at h; cases h
          · rw [if_neg hh] at h
            exact some_neg_aux _ _ _ _ _ h

/-- A text that `ParseFloat` rejects as out of range gives the infinity of its
sign. -/
theorem ParseFloat_range_sign (s : String)
    (h : (ParseFloat s).2 = some NumError.ErrRange) :
    (ParseFloat s).1 = Float64.inf (hasMinus s.data) := by
  unfold ParseFloat at h ⊢
  cases hsp : special s.data with
  | some fn =>
    obtain ⟨f, n⟩ := fn
    simp only [hsp] at h ⊢
    by_cases hn : n = s.data.length
    · rw [if_pos hn] at h; simp at h
    · rw [if_neg hn] at h; simp at h
  | none =>
    simp only [hsp] at h ⊢
    cases hr : readFloat s.data with
    | none => simp [hr] at h
    | some pr =>
      obtain ⟨p, rest⟩ := pr
      simp only [hr] at h ⊢
      by_cases hrest : rest = []
      · simp only [hrest, ne_eq, not_true_eq_false, if_false] at h ⊢
        cases hv : p.value with
        | nan => simp [hv] at h
        | fin a b c => simp [hv] at h
        | inf b =>
          simp only
          rw [p.value_inf_sign b hv, readFloat_neg s.data p rest hr]
      · simp [hrest] at h

theorem isFloatChar_digit (c : Char) (h : 48 ≤ c.toNat ∧ c.toNat ≤ 57) : isFloatChar c = true := by
  simp [isFloatChar, isDigit, h.1, h.2]

theorem isFloatChar_sign (c : Char) (h : c = '+' ∨ c = '-') : isFloatChar c = true := by
  rcases h with h | h <;> subst h <;> decide

theorem isFloatChar_hex (c : Char) (h : 97 ≤ lower c ∧ lower c ≤ 102) : isFloatChar c = true := by
  simp [isFloatChar, h.1, h.2]

theorem isFloatChar_exp (c : Char) (hex : Bool) (h : lower c = if hex = true then 112 else 101) :
    isFloatChar c = true := by
  cases hex
  · simp only [Bool.false_eq_true, if_false] at h
    exact isFloatChar_hex c (by omega)
  · simp only [if_true] at h
    simp [isFloatChar, h]

theorem mantissaLoop_chars (hex : Bool) (l : List Char) :
    ∀ st : Mantissa, ∀ x ∈ l, isFloatChar x = true ∨ x ∈ (mantissaLoop hex l st).2 := by
  induction l with
  | nil => intro st x hx; cases hx
  | cons c cs ih =>
    intro st x hx
    have step : ∀ st2 : Mantissa, isFloatChar c = true →
        (isFloatChar x = true ∨ x ∈ (mantissaLoop hex cs st2).2) := by
      intro st2 hc
      rcases List.mem_cons.mp hx with h | h
      · left; rw [h]; exact hc
      · exact ih st2 x h
    unfold mantissaLoop
    by_cases h1 : c = '_'
    · rw [if_pos h1]; exact step _ (by subst h1; decide)
    · rw [if_neg h1]
      by_cases h2 : c = '.'
      · rw [if_pos h2]
        by_cases h3 : st.sawdot = true
        · rw [if_pos h3]; right; exact hx
        · rw [if_neg h3]; exact step _ (by subst h2; decide)
      · rw [if_neg h2]
        by_cases h4 : 48 ≤ c.toNat ∧ c.toNat ≤ 57
        · rw [if_pos h4]
          by_cases h5 : c = '0' ∧ st.nd = 0
          · rw [if_pos h5]; exact step _ (isFloatChar_digit c h4)
          · rw [if_neg h5]; exact step _ (isFloatChar_digit c h4)
        · rw [if_neg h4]
          by_cases h6 : hex = true ∧ 97 ≤ lower c ∧ lower c ≤ 102
          · rw [if_pos h6]; exact step _ (isFloatChar_hex c h6.2)
          · rw [if_neg h6]; right; exact hx

theorem exponentLoop_chars (l : List Char) :
    ∀ (e : Nat) (u : Bool), ∀ x ∈ l, isFloatChar x = true ∨ x ∈ (exponentLoop l e u).2.2 := by
  induction l with
  | nil => intro e u x hx; cases hx
  | cons c cs ih =>
    intro e u x hx
    have step : ∀ (e2 : Nat) (u2 : Bool), isFloatChar c = true →
        (isFloatChar x = true ∨ x ∈ (exponentLoop cs e2 u2).2.2) := by
      intro e2 u2 hc
      rcases List.mem_cons.mp hx with h | h
      · left; rw [h]; exact hc
      · exact ih e2 u2 x h
    unfold exponentLoop
    by_cases h1 : 48 ≤ c.toNat ∧ c.toNat ≤ 57
    · rw [if_pos h1]; exact step _ _ (isFloatChar_digit c h1)
    · rw [if_neg h1]
      by_cases h2 : c = '_'
      · rw [if_pos h2]; exact step _ _ (by subst h2; decide)
      · rw [if_neg h2]; right; exact hx

theorem some_rest_aux (c : Prop) [Decidable c] (fp p : FloatParts) (r rest : List Char)
    (h : (if c then none else some (fp, r)) = some (p, rest)) : r = rest := by
  by_cases hc : c
  · rw [if_pos hc] at h; cases h
  · rw [if_neg hc] at h; cases h; rfl

theorem hasHexPrefix_chars (l : List Char) (h : hasHexPrefix l = true) :
    ∀ x ∈ l, isFloatChar x = true ∨ x ∈ l.drop 2 := by
  intro x hx
  match l, h, hx with
  | z :: y :: w :: tl, h, hx =>
    simp only [hasHexPrefix, Bool.and_eq_true, beq_iff_eq] at h
    simp only [List.mem_cons] at hx
    rcases hx with hx | hx | hx
    · left; rw [hx, h.1]; decide
    · left; rw [hx]; simp [isFloatChar, h.2]
    · right; simp only [List.drop_succ_cons, List.drop_zero, List.mem_cons]; exact hx

theorem readFloat_chars (s : List Char) (p : FloatParts) (rest : List Char)
    (h : readFloat s = some (p, rest)) : ∀ x ∈ s, isFloatChar x = true ∨ x ∈ rest := by
  cases s with
  | nil => simp [readFloat] at h
  | cons c0 cs0 =>
    unfold readFloat at h
    simp only at h
    generalize hr0 : (if c0 = '+' ∨ c0 = '-' then cs0 else c0 :: cs0) = r0 at h
    have h0 : ∀ x ∈ c0 :: cs0, isFloatChar x = true ∨ x ∈ r0 := by
      intro x hx
      by_cases hs : c0 = '+' ∨ c0 = '-'
      · rw [if_pos hs] at hr0
        rcases List.mem_cons.mp hx with hx | hx
        · left; rw [hx]; exact isFloatChar_sign c0 hs
        · right; rw [← hr0]; exact hx
      · rw [if_neg hs] at hr0
        right; rw [← hr0]; exact hx
    generalize hhex : hasHexPrefix r0 = hex at h
    generalize hr1 : (if hex = true then List.drop 2 r0 else r0) = r1 at h
    have h1 : ∀ x ∈ r0, isFloatChar x = true ∨ x ∈ r1 := by
      intro x hx
      cases hex
      · simp only [Bool.false_eq_true, if_false] at hr1
        right; rw [← hr1]; exact hx
      · simp only [if_true] at hr1
        rw [← hr1]; exact hasHexPrefix_chars r0 hhex x hx
    have h2 := mantissaLoop_chars hex r1
      { sawdot := false, sawdigits := false, nd := 0, dp := 0, mant := 0, underscores := false }
    generalize mantissaLoop _ _ _ = ml at h h2
    obtain ⟨st, r2⟩ := ml
    simp only at h h2
    have h012 : ∀ x ∈ c0 :: cs0, isFloatChar x = true ∨ x ∈ r2 := by
      intro x hx
      rcases h0 x hx with h | h
      · exact Or.inl h
      · rcases h1 x h with h | h
        · exact Or.inl h
        · exact h2 x h
    clear h0 h1 h2 hr0 hr1 hhex
    generalize (c0 :: cs0).length = len at h
    generalize (c0 :: cs0) = s at h h012
    by_cases hsd : st.sawdigits = false
    · rw [if_pos hsd] at h; cases h
    · rw [if_neg hsd] at h
      cases r2 with
      | nil =>
        simp only at h
        by_cases hh : hex = true
        · rw [if_pos hh] at h; cases h
        · rw [if_neg hh] at h
          have := some_rest_aux _ _ _ _ _ h
          rw [← this]; exact h012
      | cons c cs =>
        simp only at h
        by_cases hl : lower c = if hex = true then 112 else 101
        · rw [if_pos hl] at h
          cases cs with
          | nil => cases h
          | cons c2 cs2 =>
            simp only at h
            generalize hr3 : (if c2 = '+' ∨ c2 = '-' then cs2 else c2 :: cs2) = r3 at h
            have h3 : ∀ x ∈ c2 :: cs2, isFloatChar x = true ∨ x ∈ r3 := by
              intro x hx
              by_cases hs : c2 = '+' ∨ c2 = '-'
              · rw [if_pos hs] at hr3
                rcases List.mem_cons.mp hx with hx | hx
                · left; rw [hx]; exact isFloatChar_sign c2 hs
                · right; rw [← hr3]; exact hx
              · rw [if_neg hs] at hr3
                right; rw [← hr3]; exact hx
            cases r3 with
            | nil => cases h
            | cons d tl =>
              simp only at h
              by_cases hd : 48 ≤ d.toNat ∧ d.toNat ≤ 57
              · rw [if_pos hd] at h
                have h4 := exponentLoop_chars (d :: tl) 0 st.underscores
                have := some_rest_aux _ _ _ _ _ h
                rw [this] at h4
                intro x hx
                rcases h012 x hx with hx | hx
                · exact Or.inl hx
                · rcases List.mem_cons.mp hx with hx | hx
                  · left; rw [hx]; exact isFloatChar_exp c hex hl
                  · rcases h3 x hx with hx | hx
                    · exact Or.inl hx
                    · exact h4 x hx
              · rw [if_neg hd] at h; cases h
        · rw [if_neg hl] at h
          by_cases hh : hex = true
          · rw [if_pos hh] at h; cases h
          · rw [if_neg hh] at h
            have := some_rest_aux _ _ _ _ _ h
            rw [← this]; exact h012

theorem lowerCodes_chars (l : List Char) (t : List Nat) (h : lowerCodes l = t)
    (ht : ∀ n ∈ t, n = 97 ∨ n = 102 ∨ n = 105 ∨ n = 110 ∨ n = 116 ∨ n = 121) :
    ∀ x ∈ l, isFloatChar x = true := by
  intro x hx
  have hm : (if 65 ≤ x.toNat ∧ x.toNat ≤ 90 then x.toNat + 32 else x.toNat) ∈ lowerCodes l :=
    List.mem_map.mpr ⟨x, hx, rfl⟩
  rw [h] at hm
  have := ht _ hm
  have hx2 : x.toNat = 65 ∨ x.toNat = 70 ∨ x.toNat = 73 ∨ x.toNat = 78 ∨ x.toNat = 84 ∨
      x.toNat = 89 ∨ x.toNat = 97 ∨ x.toNat = 102 ∨ x.toNat = 105 ∨ x.toNat = 110 ∨
      x.toNat = 116 ∨ x.toNat = 121 := by
    split_ifs at this <;> omega
  have key : (97 ≤ lower x ∧ lower x ≤ 102) ∨ lower x = 105 ∨ lower x = 110 ∨
      lower x = 116 ∨ lower x = 121 := by
    unfold lower
    rcases hx2 with h | h | h | h | h | h | h | h | h | h | h | h <;> rw [h] <;> decide
  rcases key with k | k | k | k | k
  · exact isFloatChar_hex x k
  all_goals simp [isFloatChar, k]

theorem isSpecialText_chars (s : String) (h : isSpecialText s = true) :
    ∀ x ∈ s.data, isFloatChar x = true := by
  simp only [isSpecialText, Bool.or_eq_true, beq_iff_eq] at h
  have hbody : ∀ x ∈ s.data, isFloatChar x = true ∨ x ∈ signBody s.data := by
    intro x hx
    cases hd : s.data with
    | nil => rw [hd] at hx; cases hx
    | cons c cs =>
      rw [hd] at hx
      simp only [signBody]
      by_cases hs : c = Char.ofNat 43 ∨ c = Char.ofNat 45
      · rw [if_pos hs]
        rcases List.mem_cons.mp hx with hx | hx
        · left; rw [hx]; exact isFloatChar_sign c hs
        · right; exact hx
      · rw [if_neg hs]; right; exact hx
  rcases h with (h | h) | h
  · exact lowerCodes_chars _ _ h (by decide)
  · intro x hx
    rcases hbody x hx with hx | hx
    · exact hx
    · exact lowerCodes_chars _ _ h (by decide) x hx
  · intro x hx
    rcases hbody x hx with hx | hx
    · exact hx
    · exact lowerCodes_chars _ _ h (by decide) x hx

/-- A text with a character that occurs in no floating-point literal is rejected
by `ParseFloat` with the value 0. -/
theorem ParseFloat_other_char (s : String) (c : Char) (hc : c ∈ s.data)
    (hf : isFloatChar c = false) :
    ParseFloat s = (Float64.zero, some NumError.ErrSyntax) := by
  unfold ParseFloat
  cases h : special s.data with
  | some fn =>
    obtain ⟨f, n⟩ := fn
    simp only
    by_cases hn : n = s.data.length
    · have := isSpecialText_chars s (special_full s f n h hn) c hc
      rw [hf] at this
      exact absurd this (by decide)
    · rw [if_neg hn]
  | none =>
    simp only
    cases hr : readFloat s.data with
    | none => rfl
    | some pr =>
      obtain ⟨p, rest⟩ := pr
      simp only
      by_cases hrest : rest = []
      · subst hrest
        rcases readFloat_chars s.data p [] hr c hc with h | h
        · rw [hf] at h; exact absurd h (by decide)
        · cases h
      · rw [if_pos hrest]

end strconv

/-! ## Lemmas on `strings` -/

namespace strings

theorem cut_single_some (c : Char) :
    ∀ (s a b : List Char), cut [c] s = some (a, b) → c ∉ a ∧ a ++ c :: b = s := by
  intro s
  induction s with
  | nil => intro a b h; simp [cut, List.isPrefixOf] at h
  | cons x xs ih =>
    intro a b h
    by_cases hx : c = x
    · subst hx
      simp [cut, List.isPrefixOf] at h
      obtain ⟨rfl, rfl⟩ := h
      simp
    · cases hc : cut [c] xs with
      | none => simp [cut, List.isPrefixOf, hx, hc] at h
      | some p =>
        obtain ⟨a1, b1⟩ := p
        simp [cut, List.isPrefixOf, hx, hc] at h
        obtain ⟨rfl, rfl⟩ := h
        obtain ⟨h1, h2⟩ := ih a1 b1 hc
        refine ⟨?_, by simp [h2]⟩
        simp [hx, h1]

theorem cut_single_none (c : Char) :
    ∀ (s : List Char), cut [c] s = none ↔ c ∉ s := by
  intro s
  induction s with
  | nil => simp [cut, List.isPrefixOf]
  | cons x xs ih =>
    by_cases hx : c = x
    · subst hx
      simp [cut, List.isPrefixOf]
    · cases hc : cut [c] xs with
      | none =>
        have := ih.mp hc
        simp [cut, List.isPrefixOf, hx, hc, this]
      | some p =>
        obtain ⟨a1, b1⟩ := p
        have : ¬ (c ∉ xs) := fun hn => by simp [ih.mpr hn] at hc
        simp only [not_not] at this
        simp [cut, List.isPrefixOf, hx, hc, this]

end strings

namespace Rtop

/-! ## The parser -/

/-- A line with a `":"` is split at the first one by `parseStr`. -/
theorem parseStr_of_cut (x : String) (a b : List Char)
    (hc : strings.cut [':'] x.data = some (a, b)) :
    parseStr x = { k := String.mk a, v := String.mk b } := by
  obtain ⟨l⟩ := x
  cases l with
  | nil => simp [strings.cut, List.isPrefixOf] at hc
  | cons c cs =>
    have hcuts : min 2 ((String.mk (c :: cs)).length + 1) - 1 = 1 := by
      simp [String.length]
    have hsep : (":" : String).data = [':'] := rfl
    show (match strings.SplitN (String.mk (c :: cs)) ":" 2 with
      | k :: v :: _ => ({ k := k, v := v } : property)
      | _ => { k := "", v := "" }) = _
    simp only [strings.SplitN, hcuts, strings.splitLoop, hsep, hc, List.map]

/-- A line without `":"` gives the zero `property`. -/
theorem parseStr_of_no_colon (x : String) (h : ':' ∉ x.data) :
    parseStr x = { k := "", v := "" } := by
  obtain ⟨l⟩ := x
  cases l with
  | nil => decide
  | cons c cs =>
    have hcuts : min 2 ((String.mk (c :: cs)).length + 1) - 1 = 1 := by
      simp [String.length]
    have hsep : (":" : String).data = [':'] := rfl
    have hc := (strings.cut_single_none ':' _).mpr h
    show (match strings.SplitN (String.mk (c :: cs)) ":" 2 with
      | k :: v :: _ => ({ k := k, v := v } : property)
      | _ => { k := "", v := "" }) = _
    simp only [strings.SplitN, hcuts, strings.splitLoop, hsep, hc, List.map]

/-- C9: `parseStr` splits on the first `":"` only. For a line `x` with a `":"` the
key has no `":"` and `k ++ ":" ++ v = x`; for a line without `":"` the result is
the empty property. -/
theorem C9_parseStr_first_colon (x : String) :
    (':' ∈ x.data →
      ':' ∉ (parseStr x).k.data ∧ (parseStr x).k ++ ":" ++ (parseStr x).v = x) ∧
    (':' ∉ x.data → parseStr x = { k := "", v := "" }) := by
  refine ⟨fun h => ?_, parseStr_of_no_colon x⟩
  cases hc : strings.cut [':'] x.data with
  | none => exact absurd h ((strings.cut_single_none ':' _).mp hc)
  | some p =>
    obtain ⟨a, b⟩ := p
    obtain ⟨h1, h2⟩ := strings.cut_single_some ':' _ a b hc
    rw [parseStr_of_cut x a b hc]
    refine ⟨h1, ?_⟩
    apply String.ext
    simp [String.data_append, h2]

/-- Witness of C9 on the lines `"a:b:c"` and `"abc"`. -/
theorem C9_parseStr_first_colon_witness :
    (':' ∉ (parseStr "a:b:c").k.data ∧
      (parseStr "a:b:c").k ++ ":" ++ (parseStr "a:b:c").v = "a:b:c") ∧
    parseStr "abc" = { k := "", v := "" } :=
  ⟨(C9_parseStr_first_colon "a:b:c").1 (by decide),
   (C9_parseStr_first_colon "abc").2 (by decide)⟩

/-! ## The sliding windows -/

/-- The windows that `format` leaves in `t.now`, for every previous snapshot `p`. -/
theorem format_windows (t : Top) (p : Info) (h : t.prev = some p) :
    ∃ t1, t.format = some t1 ∧
      t1.now.QpsLine =
        p.QpsLine.drop (p.QpsLine.length - maxLen) ++ [Float64.ofInt t.now.Qps] ∧
      t1.now.InputKbsLine =
        p.InputKbsLine.drop (p.InputKbsLine.length - maxLen) ++
          [t.now.InstantaneousInputKbps] ∧
      t1.now.OutputKbsLine =
        p.OutputKbsLine.drop (p.OutputKbsLine.length - maxLen) ++
          [t.now.InstantaneousOutputKbps] ∧
      t1.now.ConnectedClientLine =
        p.ConnectedClientLine.drop (p.ConnectedClientLine.length - maxLen) ++
          [Float64.ofInt t.now.ConnectedClients] ∧
      t1.now.BlockedClientsLine =
        p.BlockedClientsLine.drop (p.BlockedClientsLine.length - maxLen) ++
          [Float64.ofInt t.now.BlockedClients] := by
  have hd : ∀ (w : List Float64), ¬ (w.length > maxLen) →
      w.drop (w.length - maxLen) = w := by
    intro w hw
    have : w.length - maxLen = 0 := by omega
    rw [this]; rfl
  have hd1 : ∀ (w : List Float64), ¬ (w.length > maxLen - 1) →
      w.drop (w.length - maxLen) = w := by
    intro w hw
    have : w.length - maxLen = 0 := by simp only [maxLen] at hw ⊢; omega
    rw [this]; rfl
  refine ⟨_, by rw [Top.format, h], ?_, ?_, ?_, ?_, ?_⟩
  · by_cases h1 : p.QpsLine.length > maxLen - 1 <;> simp [h1, hd1]
  · by_cases h1 : p.QpsLine.length > maxLen - 1 <;>
    by_cases h2 : p.InputKbsLine.length > maxLen <;> simp [h1, h2, hd]
  · by_cases h1 : p.QpsLine.length > maxLen - 1 <;>
    by_cases h2 : p.InputKbsLine.length > maxLen <;>
    by_cases h3 : p.OutputKbsLine.length > maxLen <;> simp [h1, h2, h3, hd]
  · by_cases h1 : p.QpsLine.length > maxLen - 1 <;>
    by_cases h2 : p.InputKbsLine.length > maxLen <;>
    by_cases h3 : p.OutputKbsLine.length > maxLen <;>
    by_cases h4 : p.ConnectedClientLine.length > maxLen <;>
    simp [h1, h2, h3, h4, hd]
  · by_cases h1 : p.QpsLine.length > maxLen - 1 <;>
    by_cases h2 : p.InputKbsLine.length > maxLen <;>
    by_cases h3 : p.OutputKbsLine.length > maxLen <;>
    by_cases h4 : p.ConnectedClientLine.length > maxLen <;>
    by_cases h5 : p.BlockedClientsLine.length > maxLen <;>
    simp [h1, h2, h3, h4, h5, hd]

/-- One cycle of `run` takes windows of length `k` to length `min k maxLen + 1`. -/
theorem runItem_length (t : Top) (item : Info) (k : Nat)
    (h : windowsHaveLength t.now k) :
    ∃ t1, t.runItem item = some t1 ∧ windowsHaveLength t1.now (min k maxLen + 1) := by
  obtain ⟨t1, h0, h1, h2, h3, h4, h5⟩ :=
    format_windows { t with prev := some t.now, now := item } t.now rfl
  obtain ⟨k1, k2, k3, k4, k5⟩ := h
  refine ⟨t1, h0, ?_, ?_, ?_, ?_, ?_⟩
  · rw [h1]; simp [k1]; omega
  · rw [h2]; simp [k2]; omega
  · rw [h3]; simp [k3]; omega
  · rw [h4]; simp [k4]; omega
  · rw [h5]; simp [k5]; omega

/-- After `n` cycles from windows of length `k ≤ maxLen + 1`, every window has
length `min (k + n) (maxLen + 1)`: the windows grow to `maxLen + 1` samples and
stay there. -/
theorem runItems_length (items : List Info) :
    ∀ (t : Top) (k : Nat), k ≤ maxLen + 1 → windowsHaveLength t.now k →
      ∃ t1, t.runItems items = some t1 ∧
        windowsHaveLength t1.now (min (k + items.length) (maxLen + 1)) := by
  induction items with
  | nil =>
    intro t k hk h
    refine ⟨t, rfl, ?_⟩
    have : min (k + ([] : List Info).length) (maxLen + 1) = k := by simp; omega
    rw [this]; exact h
  | cons item items ih =>
    intro t k hk h
    obtain ⟨t1, h1, hl⟩ := runItem_length t item k h
    obtain ⟨t2, h2, hl2⟩ := ih t1 (min k maxLen + 1) (by omega) hl
    refine ⟨t2, by simp [Top.runItems, h1, h2], ?_⟩
    have : min (min k maxLen + 1 + items.length) (maxLen + 1) =
        min (k + (item :: items).length) (maxLen + 1) := by
      simp only [List.length_cons]; omega
    rw [← this]; exact hl2

/-- C1: after 51 snapshots received from the initial state of `main`, each of the
five windows holds 51 samples, one more than `maxLen = 50`. -/
theorem C1_window_exceeds_maxLen :
    ∃ t1, (mainTop 0).runItems (List.replicate 51 Info.zero) = some t1 ∧
      t1.now.QpsLine.length = 51 ∧ t1.now.InputKbsLine.length = 51 ∧
      t1.now.OutputKbsLine.length = 51 ∧ t1.now.ConnectedClientLine.length = 51 ∧
      t1.now.BlockedClientsLine.length = 51 ∧ maxLen < 51 := by
  obtain ⟨t1, h1, h2⟩ := runItems_length (List.replicate 51 Info.zero) (mainTop 0) 0
    (by decide) ⟨rfl, rfl, rfl, rfl, rfl⟩
  have : min (0 + (List.replicate 51 Info.zero).length) (maxLen + 1) = 51 := by decide
  rw [this] at h2
  obtain ⟨k1, k2, k3, k4, k5⟩ := h2
  exact ⟨t1, h1, k1, k2, k3, k4, k5, by decide⟩

/-- C7: for every previous snapshot `p` and current snapshot, `format` succeeds and
each new window is the previous window with its oldest `len - maxLen` samples
dropped (none when `len ≤ maxLen`), followed by the gauge of the current snapshot. -/
theorem C7_format_drops_oldest_then_appends (t : Top) (p : Info) :
    ∃ t1, Top.format { t with prev := some p } = some t1 ∧
      t1.now.QpsLine =
        p.QpsLine.drop (p.QpsLine.length - 50) ++ [Float64.ofInt t.now.Qps] ∧
      t1.now.InputKbsLine =
        p.InputKbsLine.drop (p.InputKbsLine.length - 50) ++
          [t.now.InstantaneousInputKbps] ∧
      t1.now.OutputKbsLine =
        p.OutputKbsLine.drop (p.OutputKbsLine.length - 50) ++
          [t.now.InstantaneousOutputKbps] ∧
      t1.now.ConnectedClientLine =
        p.ConnectedClientLine.drop (p.ConnectedClientLine.length - 50) ++
          [Float64.ofInt t.now.ConnectedClients] ∧
      t1.now.BlockedClientsLine =
        p.BlockedClientsLine.drop (p.BlockedClientsLine.length - 50) ++
          [Float64.ofInt t.now.BlockedClients] :=
  format_windows { t with prev := some p } p rfl

/-! ## The CPU rates -/

theorem calCpu_some (t : Top) (p : Info) (h : t.prev = some p) (f : Float64) :
    t.calCpu f = Float64.nanToZero
      (Float64.mul (Float64.div f (Duration.Seconds (Time.Sub t.now.t p.t)))
        (Float64.ofInt 100)) := by
  simp [Top.calCpu, h, Float64.nanToZero]

theorem diffCpu_sys (t : Top) (p : Info) (h : t.prev = some p) :
    t.diffCpu CPUSYS = Float64.sub t.now.CpuSys p.CpuSys := by
  have : ¬ (CPUSYS = CPUSER) := by decide
  simp [Top.diffCpu, h, this]

theorem diffCpu_user (t : Top) (p : Info) (h : t.prev = some p) :
    t.diffCpu CPUSER = Float64.sub t.now.CpuUser p.CpuUser := by
  simp [Top.diffCpu, h]

/-- C5: with two snapshots taken at the same instant and different CPU counters,
the elapsed time is `0` seconds and `calCpuSys` and `calCpuUs` return `+Inf`, not 0. -/
theorem C5_zero_elapsed_gives_infinity :
    Time.Sub sameInstantTop.now.t 63929347200000000000 = 0 ∧
    Duration.Seconds 0 = Float64.zero ∧
    sameInstantTop.calCpuSys = Float64.inf false ∧
    sameInstantTop.calCpuUs = Float64.inf false := by
  decide

/-- C6: on the first cycle of the driver `prev` is the empty `Info` of `main`, not
nil: the elapsed time saturates at the largest `Duration` and `calCpuSys`,
`calCpuUs` are the counters of the snapshot divided by it, times 100, which is not
0; each window holds the single gauge of the snapshot. -/
theorem C6_first_cycle_cpu_not_zero :
    ∃ t1, (mainTop 63929347199000000000).runItem firstItem = some t1 ∧
      t1.prev = some Info.zero ∧
      Time.Sub t1.now.t 0 = maxDuration ∧
      t1.calCpuSys = Float64.fin false 8192000000000000 (-76) ∧
      t1.calCpuUs = Float64.fin false 8192000000000000 (-77) ∧
      t1.calCpuSys ≠ Float64.zero ∧ t1.calCpuUs ≠ Float64.zero ∧
      t1.now.QpsLine = [Float64.ofInt 7] ∧
      t1.now.InputKbsLine = [Float64.ofInt 2] ∧
      t1.now.OutputKbsLine = [Float64.ofInt 4] ∧
      t1.now.ConnectedClientLine = [Float64.ofInt 3] ∧
      t1.now.BlockedClientsLine = [Float64.ofInt 1] := by
  refine ⟨_, rfl, ?_⟩
  decide

/-! ## The memory percentage -/

/-- C10: `calMemory` is 0 whenever `MaxMemery == 0`, whatever `UsedMemory` is;
when `MaxMemery` is not 0 it is `(UsedMemory / MaxMemery) * 100` for finite gauges
(and in general the memory percentage of the specification, where a NaN result
is 0); it is computed from `now` only: `prev` is not read. -/
theorem C10_calMemory (t : Top) :
    (Float64.eq t.now.MaxMemery Float64.zero = true → t.calMemory = Float64.zero) ∧
    (Float64.eq t.now.MaxMemery Float64.zero = false →
      t.now.UsedMemory.isFinite = true → t.now.MaxMemery.isFinite = true →
      t.calMemory =
        Float64.mul (Float64.div t.now.UsedMemory t.now.MaxMemery) (Float64.ofInt 100)) ∧
    t.calMemory = referenceMemoryPercent t.now ∧
    (∀ q : Option Info, Top.calMemory { t with prev := q } = t.calMemory) := by
  refine ⟨fun h => by simp [Top.calMemory, h], fun h hu hm => ?_, ?_, fun q => rfl⟩
  · have hn : (Float64.mul (Float64.div t.now.UsedMemory t.now.MaxMemery)
        (Float64.ofInt 100)).isNaN = false := by
      rw [Float64.mul_100_isNaN]
      cases hU : t.now.UsedMemory <;> cases hM : t.now.MaxMemery <;>
        simp [hU, hM, Float64.isFinite] at hu hm
      rename_i s1 m1 e1 s2 m2 e2
      have hm2 : m2 ≠ 0 := by
        intro h0
        simp [hM, Float64.eq, Float64.zero, h0] at h
      simp only [Float64.div, hm2, if_false]
      exact Float64.round_isNaN _ _ _ _
    simp [Top.calMemory, h, hn]
  · simp only [Top.calMemory, referenceMemoryPercent, Float64.nanToZero]

/-- Witness of C10 with `maxmemory` 0 and with 1 MiB used of 4 MiB. -/
theorem C10_calMemory_witness :
    (memTop (Float64.ofInt 1048576) Float64.zero).calMemory = Float64.zero ∧
    (memTop (Float64.ofInt 1048576) (Float64.ofInt 4194304)).calMemory =
      Float64.mul (Float64.div (Float64.ofInt 1048576) (Float64.ofInt 4194304))
        (Float64.ofInt 100) :=
  ⟨(C10_calMemory (memTop (Float64.ofInt 1048576) Float64.zero)).1 (by decide),
   (C10_calMemory (memTop (Float64.ofInt 1048576) (Float64.ofInt 4194304))).2.1
      (by decide) (by decide) (by decide)⟩

/-! ## The reference CPU rate -/

theorem rate_not_nan (a b tm : Float64) (ha : a.isFinite = true) (hb : b.isFinite = true)
    (htm : tm.isPos = true) :
    Float64.nanToZero (Float64.mul (Float64.div (Float64.sub a b) tm) (Float64.ofInt 100)) =
      Float64.mul (Float64.div (Float64.sub a b) tm) (Float64.ofInt 100) := by
  have : (Float64.mul (Float64.div (Float64.sub a b) tm) (Float64.ofInt 100)).isNaN = false := by
    rw [Float64.mul_100_isNaN, Float64.div_isPos_isNaN _ _ htm,
      Float64.sub_isNaN_of_isFinite _ _ ha hb]
  simp [Float64.nanToZero, this]

theorem twoSeconds_rates (t0 : Time) :
    (twoSecondsTop t0).calCpuSys = Float64.ofInt 100 ∧
    (twoSecondsTop t0).calCpuUs = Float64.ofInt 25 := by
  have hsub : Time.Sub (t0 + 2000000000) t0 = 2000000000 := by
    have : t0 + 2000000000 - t0 = 2000000000 := by ring
    simp only [Time.Sub, this]
    decide
  have hsec : Duration.Seconds 2000000000 = Float64.ofInt 2 := by decide
  constructor
  · rw [Top.calCpuSys, calCpu_some _ _ rfl, diffCpu_sys _ _ rfl]
    simp only [twoSecondsTop, hsub, hsec]
    decide
  · rw [Top.calCpuUs, calCpu_some _ _ rfl, diffCpu_user _ _ rfl]
    simp only [twoSecondsTop, hsub, hsec]
    decide

theorem burst_rates (t0 : Time) :
    (burstTop t0).calCpuSys = Float64.ofInt 300 ∧
    (burstTop t0).calCpuUs = Float64.ofInt (-50) := by
  have hsub : Time.Sub (t0 + 2000000000) t0 = 2000000000 := by
    have : t0 + 2000000000 - t0 = 2000000000 := by ring
    simp only [Time.Sub, this]
    decide
  have hsec : Duration.Seconds 2000000000 = Float64.ofInt 2 := by decide
  constructor
  · rw [Top.calCpuSys, calCpu_some _ _ rfl, diffCpu_sys _ _ rfl]
    simp only [burstTop, hsub, hsec]
    decide
  · rw [Top.calCpuUs, calCpu_some _ _ rfl, diffCpu_user _ _ rfl]
    simp only [burstTop, hsub, hsec]
    decide

theorem calCpu_eq_reference (t : Top) :
    t.calCpuSys = referenceCpuRate Info.CpuSys t.prev t.now ∧
    t.calCpuUs = referenceCpuRate Info.CpuUser t.prev t.now := by
  cases h : t.prev with
  | none => simp [Top.calCpuSys, Top.calCpuUs, Top.calCpu, referenceCpuRate, h]
  | some p =>
    constructor
    · rw [Top.calCpuSys, calCpu_some t p h, diffCpu_sys t p h]
      rfl
    · rw [Top.calCpuUs, calCpu_some t p h, diffCpu_user t p h]
      rfl

/-- C8: `calCpuSys` and `calCpuUs` are the reference rate of the specification
over `CpuSys` and over `CpuUser`: 0 when `prev` is nil; with a previous snapshot
taken earlier than the current one (elapsed > 0) and finite counters,
`((now - prev) / elapsed) * 100`, with no clamp to `[0, 100]`. The counters
`10 -> 12` and `5 -> 5.5` over two seconds give 100 and 25; the counters
`10 -> 16` and `5 -> 4` over two seconds give 300 and -50. -/
theorem C8_calCpu_reference_rate (t : Top) :
    (t.calCpuSys = referenceCpuRate Info.CpuSys t.prev t.now ∧
      t.calCpuUs = referenceCpuRate Info.CpuUser t.prev t.now) ∧
    (t.prev = none → t.calCpuSys = Float64.zero ∧ t.calCpuUs = Float64.zero) ∧
    (∀ p : Info, t.prev = some p →
      p.t < t.now.t →
      (t.now.CpuSys.isFinite = true → p.CpuSys.isFinite = true →
        t.calCpuSys =
          Float64.mul
            (Float64.div (Float64.sub t.now.CpuSys p.CpuSys)
              (Duration.Seconds (Time.Sub t.now.t p.t)))
            (Float64.ofInt 100)) ∧
      (t.now.CpuUser.isFinite = true → p.CpuUser.isFinite = true →
        t.calCpuUs =
          Float64.mul
            (Float64.div (Float64.sub t.now.CpuUser p.CpuUser)
              (Duration.Seconds (Time.Sub t.now.t p.t)))
            (Float64.ofInt 100))) ∧
    (∀ t0 : Time, (twoSecondsTop t0).calCpuSys = Float64.ofInt 100 ∧
      (twoSecondsTop t0).calCpuUs = Float64.ofInt 25) ∧
    (∀ t0 : Time, (burstTop t0).calCpuSys = Float64.ofInt 300 ∧
      (burstTop t0).calCpuUs = Float64.ofInt (-50)) := by
  refine ⟨calCpu_eq_reference t, fun h => ?_, fun p h hlt => ?_, twoSeconds_rates, burst_rates⟩
  · simp [Top.calCpuSys, Top.calCpuUs, Top.calCpu, h]
  have htm := Time.Sub_Seconds_isPos t.now.t p.t hlt
  refine ⟨fun h1 h2 => ?_, fun h1 h2 => ?_⟩
  · rw [Top.calCpuSys, calCpu_some t p h, diffCpu_sys t p h, rate_not_nan _ _ _ h1 h2 htm]
  · rw [Top.calCpuUs, calCpu_some t p h, diffCpu_user t p h, rate_not_nan _ _ _ h1 h2 htm]

/-- Witness of C8 on the `Top` of `main` and on two snapshots two seconds apart. -/
theorem C8_calCpu_reference_rate_witness :
    (mainTop 0).calCpuSys = Float64.zero ∧ (mainTop 0).calCpuUs = Float64.zero ∧
    (twoSecondsTop 0).calCpuSys =
      Float64.mul
        (Float64.div (Float64.sub (Float64.ofInt 12) (Float64.ofInt 10))
          (Duration.Seconds (Time.Sub 2000000000 0)))
        (Float64.ofInt 100) :=
  ⟨((C8_calCpu_reference_rate (mainTop 0)).2.1 rfl).1,
   ((C8_calCpu_reference_rate (mainTop 0)).2.1 rfl).2,
   ((C8_calCpu_reference_rate (twoSecondsTop 0)).2.2.1 _ rfl (by decide)).1
     (by decide) (by decide)⟩

/-! ## The typed values -/

theorem intFields_not_float (k : String) (h : k ∈ intFields) : k ∉ floatFields := by
  simp only [intFields, List.mem_cons, List.mem_singleton, List.not_mem_nil, or_false] at h
  rcases h with h | h | h | h | h | h | h | h <;> subst h <;> decide

theorem formatVal_int (pf : String → Float64 × Option strconv.NumError) (p : property)
    (h : p.k ∈ intFields) : p.formatVal pf = Val.int (strconv.ParseInt p.v).1 := by
  simp [property.formatVal, intFields_not_float p.k h, h, property.int64]

theorem formatVal_float (pf : String → Float64 × Option strconv.NumError) (p : property)
    (h : p.k ∈ floatFields) : p.formatVal pf = Val.float (pf p.v).1 := by
  simp [property.formatVal, h, property.float64]

/-- C3: the claim fails on texts that are out of range. The text
`9223372036854775808` of the integer field `keyspace_hits` is out of the `int64`
range, and `formatVal` returns `2^63 - 1` for it, not 0. The text `1e400` of the
float field `used_memory` is out of the `float64` range (`strconv.ParseFloat`
reports `ErrRange`), and `formatVal` returns `+Inf` for it, not 0.0. -/
theorem C3_out_of_range_is_not_zero :
    "keyspace_hits" ∈ intFields ∧
    strconv.decimalValue "9223372036854775808" = 2 ^ 63 ∧
    (∀ pf, property.formatVal pf { k := "keyspace_hits", v := "9223372036854775808" } =
      Val.int 9223372036854775807) ∧
    Val.int 9223372036854775807 ≠ Val.int 0 ∧
    "used_memory" ∈ floatFields ∧
    (strconv.ParseFloat "1e400").2 = some strconv.NumError.ErrRange ∧
    property.formatVal strconv.ParseFloat { k := "used_memory", v := "1e400" } =
      Val.float (Float64.inf false) ∧
    Val.float (Float64.inf false) ≠ Val.float Float64.zero := by
  refine ⟨by decide, by decide, fun pf => ?_, by decide, by decide, by decide, by decide,
    by decide⟩
  rw [formatVal_int pf _ (by decide)]
  decide

/-- C3 as amended. For an integer field, a text of decimal syntax gives its value
when that is in the `int64` range and the nearest bound (`2^63 - 1` or `-2^63`)
when it is not; a text that is not of decimal syntax gives 0, unless its leading
digits exceed `2^64 - 1`, which again gives the bound. For a float field, with
the conversion `strconv.ParseFloat`: a text that it rejects for its syntax gives
exactly `+0`, and so does in particular every text with a character that no
floating-point literal contains, and every text without a decimal digit other
than the special texts `inf`, `infinity` and `nan`; a text that it rejects as out
of range gives the infinity of the sign of the text, not 0. -/
theorem C3_formatVal_of_number_text (pf : String → Float64 × Option strconv.NumError)
    (p : property) :
    (p.k ∈ intFields →
      (strconv.decimalSyntax p.v = true → -(2 ^ 63) ≤ strconv.decimalValue p.v →
        strconv.decimalValue p.v < 2 ^ 63 →
        p.formatVal pf = Val.int (strconv.decimalValue p.v)) ∧
      (strconv.decimalSyntax p.v = true → 2 ^ 63 ≤ strconv.decimalValue p.v →
        p.formatVal pf = Val.int (2 ^ 63 - 1)) ∧
      (strconv.decimalSyntax p.v = true → strconv.decimalValue p.v < -(2 ^ 63) →
        p.formatVal pf = Val.int (-(2 ^ 63))) ∧
      (strconv.decimalSyntax p.v = false →
        strconv.digitsValue 0 (strconv.leadingDigits p.v) ≤ strconv.maxUint64 →
        p.formatVal pf = Val.int 0) ∧
      (strconv.decimalSyntax p.v = false →
        strconv.maxUint64 < strconv.digitsValue 0 (strconv.leadingDigits p.v) →
        p.formatVal pf =
          Val.int (if strconv.hasMinus p.v.data then -(2 ^ 63) else 2 ^ 63 - 1))) ∧
    (p.k ∈ floatFields →
      ((strconv.ParseFloat p.v).2 = some strconv.NumError.ErrSyntax →
        p.formatVal strconv.ParseFloat = Val.float Float64.zero) ∧
      ((strconv.ParseFloat p.v).2 = some strconv.NumError.ErrRange →
        p.formatVal strconv.ParseFloat =
          Val.float (Float64.inf (strconv.hasMinus p.v.data))) ∧
      ((∃ c ∈ p.v.data, strconv.isFloatChar c = false) →
        (strconv.ParseFloat p.v).2 = some strconv.NumError.ErrSyntax ∧
        p.formatVal strconv.ParseFloat = Val.float Float64.zero) ∧
      ((∀ c ∈ p.v.data, strconv.isDigit c = false) → strconv.isSpecialText p.v = false →
        (strconv.ParseFloat p.v).2 = some strconv.NumError.ErrSyntax ∧
        p.formatVal strconv.ParseFloat = Val.float Float64.zero)) := by
  refine ⟨fun hk => ?_, fun hk => ?_⟩
  swap
  · rw [formatVal_float strconv.ParseFloat p hk]
    refine ⟨fun h => ?_, fun h => ?_, fun h => ?_, fun h1 h2 => ?_⟩
    · rw [strconv.ParseFloat_syntax_zero p.v h]
    · rw [strconv.ParseFloat_range_sign p.v h]
    · obtain ⟨c, hc, hf⟩ := h
      rw [strconv.ParseFloat_other_char p.v c hc hf]
      exact ⟨rfl, rfl⟩
    · rw [strconv.ParseFloat_no_digit p.v h1 h2]
      exact ⟨rfl, rfl⟩
  rw [formatVal_int pf p hk, strconv.ParseInt_spec]
  have hbody : strconv.decimalSyntax p.v = true → strconv.signBody p.v.data ≠ [] := by
    intro h hb
    simp [strconv.decimalSyntax, hb] at h
  have hlead : strconv.decimalSyntax p.v = true →
      strconv.leadingDigits p.v = strconv.signBody p.v.data := by
    intro h
    simp only [strconv.decimalSyntax, Bool.and_eq_true] at h
    exact (strconv.takeWhile_eq_self_iff _).mpr h.2
  have hval : strconv.decimalSyntax p.v = true →
      (strconv.decimalValue p.v).natAbs = strconv.digitsValue 0 (strconv.leadingDigits p.v) := by
    intro h
    rw [hlead h]
    simp only [strconv.decimalValue]
    split_ifs <;> simp
  refine ⟨?_, ?_, ?_, ?_, ?_⟩
  · intro hs h1 h2
    have hov : ¬ (strconv.maxUint64 < strconv.digitsValue 0 (strconv.leadingDigits p.v)) := by
      rw [← hval hs]; simp only [strconv.maxUint64]; omega
    simp only [hbody hs, if_false, hov, hs, Bool.true_eq_false]
    rw [if_neg (by omega), if_neg (by omega)]
  · intro hs h1
    by_cases hov : strconv.maxUint64 < strconv.digitsValue 0 (strconv.leadingDigits p.v)
    · have hm : strconv.hasMinus p.v.data = false := by
        by_contra hm
        simp only [Bool.not_eq_false] at hm
        simp only [strconv.decimalValue, hm, if_true] at h1
        omega
      simp [hbody hs, hov, hm]
    · simp only [hbody hs, if_false, hov, hs, Bool.true_eq_false]
      rw [if_pos h1]
  · intro hs h1
    by_cases hov : strconv.maxUint64 < strconv.digitsValue 0 (strconv.leadingDigits p.v)
    · have hm : strconv.hasMinus p.v.data = true := by
        by_contra hm
        simp only [Bool.not_eq_true] at hm
        simp only [strconv.decimalValue, hm] at h1
        simp at h1
        omega
      simp [hbody hs, hov, hm]
    · simp only [hbody hs, if_false, hov, hs, Bool.true_eq_false]
      rw [if_neg (by omega), if_pos h1]
  · intro hs h1
    have hov : ¬ (strconv.maxUint64 < strconv.digitsValue 0 (strconv.leadingDigits p.v)) := by
      omega
    by_cases hb : strconv.signBody p.v.data = []
    · simp [hb]
    · simp [hb, hov, hs]
  · intro hs h1
    have hb : strconv.signBody p.v.data ≠ [] := by
      intro hb
      simp [strconv.leadingDigits, hb, strconv.digitsValue, strconv.maxUint64] at h1
    simp [hb, h1]

/-- Witness of C3 on the texts `12x` and `-9223372036854775809` of an integer
field and `1.5M`, `-1e400`, `12 34` and `zz` of a float field. -/
theorem C3_formatVal_of_number_text_witness :
    property.formatVal strconv.ParseFloat { k := "keyspace_hits", v := "12x" } = Val.int 0 ∧
    property.formatVal strconv.ParseFloat
        { k := "keyspace_hits", v := "-9223372036854775809" } = Val.int (-(2 ^ 63)) ∧
    property.formatVal strconv.ParseFloat { k := "used_memory", v := "1.5M" } =
      Val.float Float64.zero ∧
    property.formatVal strconv.ParseFloat { k := "used_memory", v := "-1e400" } =
      Val.float (Float64.inf true) ∧
    ((strconv.ParseFloat "12 34").2 = some strconv.NumError.ErrSyntax ∧
      property.formatVal strconv.ParseFloat { k := "used_memory", v := "12 34" } =
        Val.float Float64.zero) ∧
    ((strconv.ParseFloat "zz").2 = some strconv.NumError.ErrSyntax ∧
      property.formatVal strconv.ParseFloat { k := "used_memory", v := "zz" } =
        Val.float Float64.zero) :=
  ⟨(C3_formatVal_of_number_text _ { k := "keyspace_hits", v := "12x" }).1 (by decide)
      |>.2.2.2.1 (by decide) (by decide),
   (C3_formatVal_of_number_text _ { k := "keyspace_hits", v := "-9223372036854775809" }).1
      (by decide) |>.2.2.1 (by decide) (by decide),
   (C3_formatVal_of_number_text strconv.ParseFloat { k := "used_memory", v := "1.5M" }).2
      (by decide) |>.1 (by decide),
   (C3_formatVal_of_number_text strconv.ParseFloat { k := "used_memory", v := "-1e400" }).2
      (by decide) |>.2.1 (by decide),
   (C3_formatVal_of_number_text strconv.ParseFloat { k := "used_memory", v := "12 34" }).2
      (by decide) |>.2.2.1 (by decide),
   (C3_formatVal_of_number_text strconv.ParseFloat { k := "used_memory", v := "zz" }).2
      (by decide) |>.2.2.2 (by decide) (by decide)⟩

/-! ## The mapping of `fetch` -/

theorem mem_set (m : GoMap) (k : String) (v : Val) (e : String × Val)
    (h : e ∈ m.set k v) : e = (k, v) ∨ e ∈ m := by
  simp only [GoMap.set, List.mem_cons, List.mem_filter] at h
  rcases h with h | h
  · exact Or.inl h
  · exact Or.inr h.1

theorem mem_foldl_fetchLine (pf : String → Float64 × Option strconv.NumError)
    (lines : List String) :
    ∀ (m : GoMap) (e : String × Val), e ∈ lines.foldl (fetchLine pf) m →
      e ∈ m ∨ ∃ line ∈ lines, kept line = true ∧
        e = ((parseStr line).k, (parseStr line).formatVal pf) := by
  induction lines with
  | nil => intro m e h; exact Or.inl h
  | cons l ls ih =>
    intro m e h
    simp only [List.foldl_cons] at h
    rcases ih _ e h with h1 | ⟨line, hl, hk, he⟩
    · by_cases hs : (strings.HasPrefix l "#" || l == "") = true
      · simp only [fetchLine, hs, if_true] at h1
        exact Or.inl h1
      · simp only [fetchLine, hs, if_false] at h1
        rcases mem_set _ _ _ _ h1 with h2 | h2
        · refine Or.inr ⟨l, List.mem_cons_self _ _, ?_, h2⟩
          simp only [kept]
          simpa using hs
        · exact Or.inl h2
    · exact Or.inr ⟨line, List.mem_cons_of_mem _ hl, hk, he⟩

theorem formatVal_empty (pf : String → Float64 × Option strconv.NumError) :
    property.formatVal pf { k := "", v := "" } = Val.str "" := by
  have h1 : "" ∉ floatFields := by decide
  have h2 : "" ∉ intFields := by decide
  simp [property.formatVal, h1, h2]

/-- C2: the line `abc` has no `":"` and the loop of `fetch` stores the entry
`"" -> ""` for it: the mapping has the empty string as a key. -/
theorem C2_line_without_colon_sets_empty_key :
    ':' ∉ "abc".data ∧
    (∀ pf, fetchLine pf [] "abc" = [("", Val.str "")]) ∧
    (∀ pf, fetchMap pf "redis_version:6.2.6\r\nabc\r\n" =
      [("", Val.str ""), ("redis_version", Val.str "6.2.6")]) := by
  refine ⟨by decide, fun pf => ?_, fun pf => ?_⟩
  · have hp : parseStr "abc" = { k := "", v := "" } := by decide
    have hs : (strings.HasPrefix "abc" "#" || "abc" == "") = false := by decide
    simp only [fetchLine, hs, hp, formatVal_empty]
    decide
  · have hsplit : strings.Split "redis_version:6.2.6\r\nabc\r\n" "\r\n" =
        ["redis_version:6.2.6", "abc", ""] := by decide
    have hp1 : parseStr "redis_version:6.2.6" = { k := "redis_version", v := "6.2.6" } := by
      decide
    have hp : parseStr "abc" = { k := "", v := "" } := by decide
    have hf : property.formatVal pf { k := "redis_version", v := "6.2.6" } = Val.str "6.2.6" := by
      have h1 : "redis_version" ∉ floatFields := by decide
      have h2 : "redis_version" ∉ intFields := by decide
      simp [property.formatVal, h1, h2]
    have hs1 : (strings.HasPrefix "redis_version:6.2.6" "#" || "redis_version:6.2.6" == "") = false := by
      decide
    have hs2 : (strings.HasPrefix "abc" "#" || "abc" == "") = false := by decide
    have hs3 : (strings.HasPrefix "" "#" || "" == "") = true := by decide
    simp only [fetchMap, hsplit, List.foldl_cons, List.foldl_nil, fetchLine, hs1, hs2, hs3, hp1, hp,
      hf, formatVal_empty, if_true, if_false, Bool.false_eq_true]
    decide

/-- C2 as amended: a line without `":"` that is not skipped makes the loop run
`m[""] = ""` and nothing else; every entry of the mapping with a non-empty key
comes from a line of the report that contains `":"`, whose text before the first
`":"` is the key. -/
theorem C2_entries_of_lines (pf : String → Float64 × Option strconv.NumError) :
    (∀ (m : GoMap) (line : String), ':' ∉ line.data →
      fetchLine pf m line =
        if strings.HasPrefix line "#" || line == "" then m else m.set "" (Val.str "")) ∧
    (∀ (r k : String) (v : Val), (k, v) ∈ fetchMap pf r → k ≠ "" →
      ∃ line ∈ strings.Split r "\r\n", ':' ∈ line.data ∧
        (parseStr line).k = k ∧ (parseStr line).formatVal pf = v) := by
  constructor
  · intro m line h
    simp only [fetchLine, parseStr_of_no_colon line h, formatVal_empty]
  · intro r k v h hk
    rcases mem_foldl_fetchLine pf _ [] (k, v) h with h1 | ⟨line, hl, _, he⟩
    · simp at h1
    · simp only [Prod.mk.injEq] at he
      refine ⟨line, hl, ?_, he.1.symm, he.2.symm⟩
      by_contra hc
      rw [parseStr_of_no_colon line hc] at he
      exact hk he.1

/-- Witness of C2 on the line `abc` and the report `abc\r\nrole:master`. -/
theorem C2_entries_of_lines_witness :
    fetchLine (fun _ => (Float64.nan, none)) [("role", Val.str "master")] "abc" =
      (if strings.HasPrefix "abc" "#" || "abc" == "" then [("role", Val.str "master")]
       else GoMap.set [("role", Val.str "master")] "" (Val.str "")) ∧
    ∃ line ∈ strings.Split "abc\r\nrole:master" "\r\n", ':' ∈ line.data ∧
      (parseStr line).k = "role" ∧
      (parseStr line).formatVal (fun _ => (Float64.nan, none)) = Val.str "master" :=
  ⟨(C2_entries_of_lines _).1 _ "abc" (by decide),
   (C2_entries_of_lines _).2 "abc\r\nrole:master" "role" (Val.str "master") (by decide)
     (by decide)⟩

/-! ## The hit ratio -/

section
open Float64


theorem wrapInt64_of_range (z : Int) (h0 : 0 ≤ z) (h1 : z < 2 ^ 63) : wrapInt64 z = z := by
  simp only [wrapInt64]
  omega

/-- The local `hp` of `renderKeyHitPercent`, from the counters. -/
theorem hitPercent_eq (t : Top) (h0 : 0 ≤ t.now.KeyspaceHits + t.now.KeyspaceMisses)
    (h1 : t.now.KeyspaceHits + t.now.KeyspaceMisses < 2 ^ 63) :
    hitPercent t = nanToZero (ceil (mul (div (ofInt t.now.KeyspaceHits)
      (ofInt (t.now.KeyspaceHits + t.now.KeyspaceMisses))) (ofInt 100))) := by
  simp only [hitPercent, wrapInt64_of_range _ h0 h1, nanToZero]

theorem percent_of_toInt64 (t : Top) (c : Int) (h : (hitPercent t).toInt64 = some c) :
    (renderKeyHitPercent t).map Gauge.Percent = some c := by
  simp [renderKeyHitPercent, h]

/-- Without hits and with some misses the gauge shows 0. -/
theorem hitPercent_no_hits (t : Top) (hh : t.now.KeyspaceHits = 0)
    (hm : 0 < t.now.KeyspaceMisses) (hs : t.now.KeyspaceMisses < 2 ^ 63) :
    (renderKeyHitPercent t).map Gauge.Percent = some 0 := by
  apply percent_of_toInt64
  rw [hitPercent_eq t (by omega) (by omega), hh, zero_add]
  obtain ⟨m2, e2, g1, g2, -⟩ := ofInt_pos t.now.KeyspaceMisses hm hs
  have hm2 : m2 ≠ 0 := by
    have : 0 < m2 := lt_of_lt_of_le (by positivity) g2
    omega
  rw [g1, ofInt_zero, ofInt_100]
  have hd : div (fin false 0 (-1074)) (fin false m2 e2) = fin false 0 (-1074) := by
    simp [div, hm2, Float64.round]
  rw [hd]
  decide

/-- With some hits and no overflow of the sum, the gauge shows a percentage within
1 of the exact one. -/
theorem hitPercent_some_hits (t : Top) (hh : 0 < t.now.KeyspaceHits)
    (hm : 0 ≤ t.now.KeyspaceMisses)
    (hs : t.now.KeyspaceHits + t.now.KeyspaceMisses < 2 ^ 63) :
    ∃ pct : Int, (renderKeyHitPercent t).map Gauge.Percent = some pct ∧
      |pct - exactHitRatio t.now.KeyspaceHits t.now.KeyspaceMisses| ≤ 1 := by
  generalize hhv : t.now.KeyspaceHits = h at *
  generalize hmv : t.now.KeyspaceMisses = ms at *
  obtain ⟨m1, e1, g1, g2, g3, g4, g5, g6⟩ := ofInt_pos h hh (by omega)
  obtain ⟨m2, e2, k1, k2, k3, k4, k5, k6⟩ := ofInt_pos (h + ms) (by omega) hs
  obtain ⟨m3, e3, d1, d2, d3, d4, d5, d6⟩ :=
    div_normal m1 m2 e1 e2 g2 g3 k2 k3 (by omega) (by omega)
  obtain ⟨m4, e4, p1, p2, p3, p4, p5, p6⟩ :=
    mul_normal m3 7036874417766400 e3 (-46) d2 d3 (by norm_num) (by norm_num)
      (by omega) (by omega)
  have h100 : ((7036874417766400 : Nat) : ℚ) * (2 : ℚ) ^ (-46 : ℤ) = 100 := by
    rw [zpow_neg]; norm_num
  rw [h100] at p6
  have hhq : (0 : ℚ) < (h : ℚ) := by exact_mod_cast hh
  have hsq : (h : ℚ) ≤ ((h + ms : Int) : ℚ) := by exact_mod_cast (by omega : h ≤ h + ms)
  have herr := hit_ratio_error (h : ℚ) ((h + ms : Int) : ℚ) _ _ _ _ hhq hsq g6 k6 d6 p6
  -- the exponent of the product
  have hv4 : (m4 : ℚ) * (2 : ℚ) ^ e4 ≤ 101 := by
    have hX : 100 * (h : ℚ) / ((h + ms : Int) : ℚ) ≤ 100 := by
      rw [div_le_iff₀ (lt_of_lt_of_le hhq hsq)]
      linarith
    rw [abs_le] at herr
    linarith [herr.2]
  have he4 : e4 ≤ 10 := by
    by_contra hc
    have h11 : (11 : ℤ) ≤ e4 := by omega
    have : (2 : ℚ) ^ (11 : ℤ) ≤ (2 : ℚ) ^ e4 := zpow_le_zpow_right₀ (by norm_num) h11
    have hm4 : (1 : ℚ) ≤ (m4 : ℚ) := by
      have : 1 ≤ m4 := le_trans (by norm_num) p2
      exact_mod_cast this
    have hpos : (0 : ℚ) < (2 : ℚ) ^ e4 := by positivity
    have : (2 : ℚ) ^ (11 : ℤ) ≤ (m4 : ℚ) * (2 : ℚ) ^ e4 := by nlinarith
    norm_num at this
    linarith
  obtain ⟨c, c1, c2, c3⟩ := ceil_normal m4 e4 p2 p3 he4
  refine ⟨(c : Int), ?_, ?_⟩
  · apply percent_of_toInt64
    rw [hitPercent_eq t (by rw [hhv, hmv]; omega) (by rw [hhv, hmv]; exact hs), hhv, hmv]
    rw [g1, k1, d1, ofInt_100, p1]
    simp only [nanToZero, c2, Bool.false_eq_true, if_false]
    exact c1
  · have hne : h + ms ≠ 0 := by omega
    simp only [exactHitRatio, hne, if_false]
    rw [c3]
    apply ceil_near
    have : ((100 * h : Int) : ℚ) / ((h + ms : Int) : ℚ) = 100 * (h : ℚ) / ((h + ms : Int) : ℚ) := by
      push_cast; ring
    rw [this]
    exact herr


end

theorem hitPercent_zero_counters (t : Top) (h1 : t.now.KeyspaceHits = 0)
    (h2 : t.now.KeyspaceMisses = 0) :
    (renderKeyHitPercent t).map Gauge.Percent = some 0 := by
  have : hitPercent t = Float64.zero := by
    simp only [hitPercent, h1, h2]
    decide
  simp only [renderKeyHitPercent, this]
  decide

theorem exactHitRatio_zero : exactHitRatio 0 0 = 0 := by
  simp [exactHitRatio]

theorem exactHitRatio_no_hits (ms : Int) : exactHitRatio 0 ms = 0 := by
  simp [exactHitRatio]

/-- C4: with 7 hits and 93 misses the gauge shows 8, while the exact value
`ceil(100 * 7 / 100)` is 7; with `2^61 + 1` hits and `2^61 - 1` misses it shows 50,
while the exact value is 51; and with `2^62` hits and `2^62` misses the sum
overflows `int64` and the gauge shows -50, while the exact value is 50. -/
theorem C4_hit_ratio_not_exact :
    ((renderKeyHitPercent (hitTop 7 93)).map Gauge.Percent = some 8 ∧
      exactHitRatio 7 93 = 7) ∧
    ((renderKeyHitPercent (hitTop (2 ^ 61 + 1) (2 ^ 61 - 1))).map Gauge.Percent = some 50 ∧
      exactHitRatio (2 ^ 61 + 1) (2 ^ 61 - 1) = 51) ∧
    ((renderKeyHitPercent (hitTop (2 ^ 62) (2 ^ 62))).map Gauge.Percent = some (-50) ∧
      exactHitRatio (2 ^ 62) (2 ^ 62) = 50) := by
  refine ⟨⟨by decide, ?_⟩, ⟨by decide, ?_⟩, ⟨by decide, ?_⟩⟩
  · simp only [exactHitRatio]
    norm_num
  · simp only [exactHitRatio]
    norm_num
    rw [Int.ceil_eq_iff]
    norm_num
  · simp only [exactHitRatio]
    norm_num

/-- C4 as amended: for non-negative counters whose sum does not overflow `int64`,
the percentage is 0 when `hits + misses = 0` and is otherwise within 1 of
`ceil(100 * hits / (hits + misses))`; it is that exact value for 3 hits and 1 miss
(75) and for 7 hits and 3 misses (70). -/
theorem C4_hit_ratio_within_one (t : Top) (hh : 0 ≤ t.now.KeyspaceHits)
    (hm : 0 ≤ t.now.KeyspaceMisses)
    (hs : t.now.KeyspaceHits + t.now.KeyspaceMisses < 2 ^ 63) :
    (t.now.KeyspaceHits + t.now.KeyspaceMisses = 0 →
      (renderKeyHitPercent t).map Gauge.Percent = some 0) ∧
    (∃ pct : Int, (renderKeyHitPercent t).map Gauge.Percent = some pct ∧
      |pct - exactHitRatio t.now.KeyspaceHits t.now.KeyspaceMisses| ≤ 1) ∧
    ((renderKeyHitPercent (hitTop 3 1)).map Gauge.Percent = some 75 ∧
      exactHitRatio 3 1 = 75) ∧
    ((renderKeyHitPercent (hitTop 7 3)).map Gauge.Percent = some 70 ∧
      exactHitRatio 7 3 = 70) := by
  refine ⟨fun h0 => hitPercent_zero_counters t (by omega) (by omega), ?_,
    ⟨by decide, ?_⟩, ⟨by decide, ?_⟩⟩
  · by_cases hpos : 0 < t.now.KeyspaceHits
    · exact hitPercent_some_hits t hpos hm hs
    · have hz : t.now.KeyspaceHits = 0 := by omega
      refine ⟨0, ?_, ?_⟩
      · by_cases hmz : t.now.KeyspaceMisses = 0
        · exact hitPercent_zero_counters t hz hmz
        · exact hitPercent_no_hits t hz (by omega) (by omega)
      · rw [hz, exactHitRatio_no_hits]
        simp
  · simp only [exactHitRatio]
    norm_num
  · simp only [exactHitRatio]
    norm_num

/-- Witness of C4 on 7 hits and 93 misses, and on the empty snapshot. -/
theorem C4_hit_ratio_within_one_witness :
    (∃ pct : Int, (renderKeyHitPercent (hitTop 7 93)).map Gauge.Percent = some pct ∧
      |pct - exactHitRatio 7 93| ≤ 1) ∧
    (renderKeyHitPercent (hitTop 0 0)).map Gauge.Percent = some 0 :=
  ⟨(C4_hit_ratio_within_one (hitTop 7 93) (by decide) (by decide) (by decide)).2.1,
   (C4_hit_ratio_within_one (hitTop 0 0) (by decide) (by decide) (by decide)).1 (by decide)⟩

end Rtop
